import Mathlib

/-!
# A byte-level embedding of `mymalloc.c`

The allocator of `src/mymalloc.c` keeps its metadata inside the memory it
manages, so the embedding works on a flat byte memory `Nat → Nat` and follows
the C code statement by statement.

Conventions (x86-64 Linux, LP64, little endian):

* `size_t` and pointers are 8 bytes, `int` is 4 bytes; `struct block` is laid
  out as `size` at offset 0, `next` at offset 8, `free` at offset 16, padded to
  `BLOCK_SIZE = 24` bytes.
* `size_t` arithmetic wraps modulo `2^64`; conversions to `int` wrap modulo
  `2^32` into the signed range, and `int` multiplication wraps the same way.
* Addresses are natural numbers and pointer arithmetic is the plain sum, or
  the difference cut at 0 in `get_block_ptr`; a pointer stored in memory keeps
  its low 8 bytes.
* Every address can be read and written; memory faults are not modelled.
* `global_base` is a table over all natural numbers; the bound `MAX_NUM_CPUS`
  is not checked, as in the source.
* `sched_getcpu` and `mmap` answer through `Env`; `sbrk` moves the break
  `State.brk` and fails beyond `State.brk_max`.
* Locking, `sbrk` and `mmap` calls are recorded in `State.trace`; `printf`
  is left out.
* The list walk of `find_free_block_best_fit` takes a fuel bound; `none`
  stands for a walk that did not end within it.
-/

namespace MyMalloc

/-! ## Machine words and byte memory -/

/-- Number of values of a `size_t` or of a pointer. -/
def WORD : Nat := 18446744073709551616

/-- The value of `sizeof(block_t)`. -/
def BLOCK_SIZE : Nat := 24

/-- The null pointer. -/
def NULL : Nat := 0

/-- The value `(void*) -1`, returned by a failing `sbrk` and equal to `MAP_FAILED`. -/
def MAP_FAILED : Nat := 18446744073709551615

/-- Byte-addressed memory; a cell is read modulo 256. -/
abbrev Mem := Nat → Nat

/-- Little-endian read of `k` bytes at address `a`. -/
def load (m : Mem) (a : Nat) : Nat → Nat
  | 0 => 0
  | k + 1 => m a % 256 + 256 * load m (a + 1) k

/-- Little-endian write of the low `k` bytes of `v` at address `a`. -/
def store (m : Mem) (a k v : Nat) : Mem :=
  fun x => if a ≤ x ∧ x < a + k then v / 256 ^ (x - a) % 256 else m x

/-- Subtraction of two `size_t` values. -/
def sub64 (a b : Nat) : Nat := (a % WORD + WORD - b % WORD) % WORD

/-- Conversion of an integer to `int`. -/
def to_int (x : Int) : Int := (x + 2147483648) % 4294967296 - 2147483648

/-- Conversion of an `int` to `size_t`. -/
def to_size_t (x : Int) : Nat := (x % 18446744073709551616).toNat

/-- The field `block->size`. -/
def get_size (m : Mem) (block : Nat) : Nat := load m block 8

/-- The field `block->next`. -/
def get_next (m : Mem) (block : Nat) : Nat := load m (block + 8) 8

/-- The field `block->free`. -/
def get_free (m : Mem) (block : Nat) : Nat := load m (block + 16) 4

/-- The assignment `block->size = v`. -/
def set_size (m : Mem) (block v : Nat) : Mem := store m block 8 v

/-- The assignment `block->next = v`. -/
def set_next (m : Mem) (block v : Nat) : Mem := store m (block + 8) 8 v

/-- The assignment `block->free = v`. -/
def set_free (m : Mem) (block v : Nat) : Mem := store m (block + 16) 4 v

/-! ## Process state -/

/-- Calls that leave the allocator: locks and the two growth primitives. -/
inductive Event where
  | lock (cpuNum : Nat)
  | unlock (cpuNum : Nat)
  | lock_sbrk
  | unlock_sbrk
  | sbrk (increment : Nat)
  | mmap (length : Nat)
  deriving DecidableEq, Repr

/-- The memory, the table `global_base`, the program break and the calls made so far. -/
structure State where
  mem : Mem
  global_base : Nat → Nat
  brk : Nat
  brk_max : Nat
  trace : List Event

/-- Answers of the environment during one call of the API. -/
structure Env where
  cpu : Int
  mmap : Nat

/-- Appends an event to the trace. -/
def log (s : State) (e : Event) : State :=
  { s with trace := s.trace ++ [e] }

/-- The call `sbrk(increment)`: the old break on success, `(void*) -1` on failure. -/
def sbrk (s : State) (increment : Nat) : Nat × State :=
  if increment = 0 ∨ s.brk + increment ≤ s.brk_max then
    (s.brk, { log s (Event.sbrk increment) with brk := s.brk + increment })
  else
    (MAP_FAILED, log s (Event.sbrk increment))

/-! ## The functions of `mymalloc.c` -/

/-- The function `split`. -/
def split (m : Mem) (block size : Nat) : Mem :=
  let newBlockSize : Int := to_int (sub64 (sub64 (get_size m block) BLOCK_SIZE) size)
  let newBlock := block + size + BLOCK_SIZE
  let m1 := set_size m newBlock (to_size_t newBlockSize)
  let m2 := set_free m1 newBlock 1
  let m3 := set_next m2 newBlock (get_next m2 block)
  let m4 := set_next m3 block newBlock
  set_size m4 block size

/-- One test of the loop body of `find_free_block_best_fit`: the new `tempBlock`. -/
def pick (m : Mem) (size currentBlock tempBlock : Nat) : Nat :=
  if get_free m currentBlock ≠ 0 ∧ size ≤ get_size m currentBlock then
    if tempBlock = NULL then currentBlock
    else if get_size m currentBlock < get_size m tempBlock then currentBlock
    else tempBlock
  else tempBlock

/-- The `while` loop of `find_free_block_best_fit`; returns `tempBlock` and `*block`. -/
def find_loop (m : Mem) (size : Nat) : Nat → Nat → Nat → Nat → Option (Nat × Nat)
  | fuel, currentBlock, tempBlock, block =>
    if currentBlock = NULL then some (tempBlock, block)
    else
      match fuel with
      | 0 => none
      | fuel + 1 =>
        find_loop m size fuel (get_next m currentBlock)
          (pick m size currentBlock tempBlock) currentBlock

/-- The function `find_free_block_best_fit`; returns the result, `*block` and the state. -/
def find_free_block_best_fit (fuel : Nat) (s : State) (block size cpuNum : Nat) :
    Option (Nat × Nat × State) :=
  match find_loop s.mem size fuel (s.global_base cpuNum) NULL block with
  | none => none
  | some (tempBlock, block) =>
    if tempBlock = NULL then some (NULL, block, s)
    else if size < get_size s.mem tempBlock then
      some (tempBlock, block, { s with mem := split s.mem tempBlock size })
    else some (tempBlock, block, s)

/-- The value of `numPages * 4096` in `get_space`, as stored in `block->size`. -/
def rounded_size (size : Nat) : Nat :=
  let total := (size + BLOCK_SIZE) % WORD
  let numPages : Int :=
    if total % 4096 = 0 then to_int (total / 4096 : Nat)
    else to_int (total / 4096 + 1 : Nat)
  to_size_t (to_int (numPages * 4096))

/-- The function `get_space`, without its unused parameter `cpuNum`. -/
def get_space (env : Env) (s : State) (lastBlock size : Nat) : Nat × State :=
  if size ≤ 4096 then
    let r0 := sbrk s 0
    let block := r0.1
    let r1 := sbrk (log r0.2 Event.lock_sbrk) ((size + BLOCK_SIZE) % WORD)
    let request := r1.1
    let s1 := log r1.2 Event.unlock_sbrk
    if request = MAP_FAILED then (NULL, s1)
    else
      let m1 := if lastBlock ≠ NULL then set_next s1.mem lastBlock block else s1.mem
      let m2 := set_size m1 block size
      let m3 := set_next m2 block NULL
      (block, { s1 with mem := set_free m3 block 0 })
  else
    let s1 := log s (Event.mmap ((size + BLOCK_SIZE) % WORD))
    let block := env.mmap
    if block = MAP_FAILED then (NULL, s1)
    else
      let m1 := set_next s1.mem block NULL
      let m2 := set_size m1 block (rounded_size size)
      let m3 :=
        if size < get_size m2 block then split m2 block size
        else set_next (set_size m2 block size) block NULL
      let m4 := if lastBlock ≠ NULL then set_next m3 lastBlock block else m3
      (block, { s1 with mem := set_free m4 block 0 })

/-- The assignment `global_base[cpuNum] = block`. -/
def set_base (s : State) (cpuNum block : Nat) : State :=
  { s with global_base := fun i => if i = cpuNum then block else s.global_base i }

/-- The function `mymalloc`. -/
def mymalloc (fuel : Nat) (env : Env) (s : State) (size : Nat) : Option (Nat × State) :=
  if size = 0 then some (NULL, s)
  else if env.cpu < 0 then some (NULL, s)
  else
    let cpuNum := env.cpu.toNat
    if s.global_base cpuNum = NULL then
      let r := get_space env (log s (Event.lock cpuNum)) NULL size
      if r.1 = NULL then some (NULL, log r.2 (Event.unlock cpuNum))
      else some (r.1 + BLOCK_SIZE, log (set_base r.2 cpuNum r.1) (Event.unlock cpuNum))
    else
      let s1 := log s (Event.lock cpuNum)
      match find_free_block_best_fit fuel s1 (s1.global_base cpuNum) size cpuNum with
      | none => none
      | some (block, lastBlock, s2) =>
        if block = NULL then
          let r := get_space env s2 lastBlock size
          if r.1 = NULL then some (NULL, log r.2 (Event.unlock cpuNum))
          else some (r.1 + BLOCK_SIZE, log r.2 (Event.unlock cpuNum))
        else
          some (block + BLOCK_SIZE,
            log { s2 with mem := set_free s2.mem block 0 } (Event.unlock cpuNum))

/-- The function `get_block_ptr`. -/
def get_block_ptr (ptr : Nat) : Nat := ptr - BLOCK_SIZE

/-- The function `myfree`. -/
def myfree (env : Env) (s : State) (ptr : Nat) : State :=
  if ptr = NULL then s
  else if env.cpu < 0 then s
  else
    let cpuNum := env.cpu.toNat
    let s1 := log s (Event.lock cpuNum)
    let block_ptr := get_block_ptr ptr
    log { s1 with mem := set_free s1.mem block_ptr 1 } (Event.unlock cpuNum)

/-- The call `memset(ptr, 0, n)`. -/
def memset_zero (m : Mem) (ptr n : Nat) : Mem :=
  fun x => if ptr ≤ x ∧ x < ptr + n then 0 else m x

/-- The function `mycalloc`. -/
def mycalloc (fuel : Nat) (env : Env) (s : State) (nmemb size : Nat) : Option (Nat × State) :=
  let totalSize := (nmemb * size) % WORD
  match mymalloc fuel env s totalSize with
  | none => none
  | some (ptr, s1) => some (ptr, { s1 with mem := memset_zero s1.mem ptr totalSize })

/-! ## Arena lists -/

/-- The blocks reached from `p` through `next`, in order, up to the null pointer. -/
def Chain (m : Mem) : Nat → List Nat → Prop
  | p, [] => p = NULL
  | p, b :: bs => p ≠ NULL ∧ p = b ∧ Chain m (get_next m b) bs

/-- A block that the search accepts for a request: free and large enough. -/
def Fits (m : Mem) (size b : Nat) : Prop :=
  get_free m b ≠ 0 ∧ size ≤ get_size m b

/-- The value of `tempBlock` after the loop has visited the blocks of a list. -/
def scan (m : Mem) (size : Nat) : List Nat → Nat → Nat
  | [], tempBlock => tempBlock
  | b :: bs, tempBlock => scan m size bs (pick m size b tempBlock)

/-- The value of `*block` after the loop has visited the blocks of a list. -/
def last_visited : List Nat → Nat → Nat
  | [], block => block
  | b :: bs, _ => last_visited bs b

/-- Decision procedure for `Chain`. -/
def Chain.decide (m : Mem) : (bs : List Nat) → (p : Nat) → Decidable (Chain m p bs)
  | [], p => inferInstanceAs (Decidable (p = NULL))
  | b :: bs, p =>
    have := Chain.decide m bs (get_next m b)
    inferInstanceAs (Decidable (p ≠ NULL ∧ p = b ∧ Chain m (get_next m b) bs))

instance (m : Mem) (p : Nat) (bs : List Nat) : Decidable (Chain m p bs) := Chain.decide m bs p

instance (m : Mem) (size b : Nat) : Decidable (Fits m size b) :=
  inferInstanceAs (Decidable (get_free m b ≠ 0 ∧ size ≤ get_size m b))

/-- The state after a search on an arena with list `bs`: split when the hit is larger. -/
def after_search (s : State) (size : Nat) (bs : List Nat) : State :=
  if scan s.mem size bs NULL ≠ NULL ∧ size < get_size s.mem (scan s.mem size bs NULL) then
    { s with mem := split s.mem (scan s.mem size bs NULL) size }
  else s

/-! ## Example states -/

/-- Writes a whole block header. -/
def mk_block (m : Mem) (b size next free : Nat) : Mem :=
  set_free (set_next (set_size m b size) b next) b free

/-- An arena of processor 0 with three free blocks of sizes 50, 30 and 80. -/
def arena_50_30_80 : State :=
  { mem := mk_block (mk_block (mk_block (fun _ => 0) 4096 50 4170 1) 4170 30 4224 1) 4224 80 0 1
    global_base := fun i => if i = 0 then 4096 else 0
    brk := 4328
    brk_max := 1048576
    trace := [] }

/-- An arena of processor 0 with three free blocks of sizes 64, 64 and 64. -/
def arena_64_64_64 : State :=
  { mem := mk_block (mk_block (mk_block (fun _ => 0) 4096 64 4184 1) 4184 64 4272 1) 4272 64 0 1
    global_base := fun i => if i = 0 then 4096 else 0
    brk := 4360
    brk_max := 1048576
    trace := [] }

/-- Processor 0 and a refusing `mmap`. -/
def env_cpu0 : Env := { cpu := 0, mmap := MAP_FAILED }

/-- An arena of processor 0 with one free block of size `2^31 + 32`. -/
def arena_big : State :=
  { mem := mk_block (fun _ => 0) 1048576 2147483680 0 1
    global_base := fun i => if i = 0 then 1048576 else 0
    brk := 4096
    brk_max := 1048576
    trace := [] }

/-- The split behaviour as the specification words it, for one search: a hit larger than
the request keeps `n` bytes and is followed by a new free block whose size is the integer
`old_size - header_size - n` and whose `next` is the former `next` of the hit. -/
def split_as_specified (fuel : Nat) (s : State) (n cpuNum : Nat) : Prop :=
  ∀ r last s', find_free_block_best_fit fuel s (s.global_base cpuNum) n cpuNum
      = some (r, last, s') →
    r ≠ NULL → n < get_size s.mem r →
      get_size s'.mem r = n ∧
      get_free s'.mem (get_next s'.mem r) = 1 ∧
      (get_size s'.mem (get_next s'.mem r) : Int)
        = (get_size s.mem r : Int) - (BLOCK_SIZE : Int) - (n : Int) ∧
      get_next s'.mem (get_next s'.mem r) = get_next s.mem r

/-! ## Sequences of calls -/

/-- A call of the API. -/
inductive Call where
  | malloc (size : Nat)
  | free (ptr : Nat)
  | calloc (nmemb size : Nat)

/-- One call of the API: the returned pointer (`NULL` for `myfree`) and the new state. -/
def step (fuel : Nat) (env : Env) (s : State) : Call → Option (Nat × State)
  | Call.malloc size => mymalloc fuel env s size
  | Call.free ptr => some (NULL, myfree env s ptr)
  | Call.calloc nmemb size => mycalloc fuel env s nmemb size

/-- A sequence of calls, each with the answers of the environment; returns the pointers
in call order and the last state. -/
def run (fuel : Nat) : List (Env × Call) → State → Option (List Nat × State)
  | [], s => some ([], s)
  | (env, c) :: cs, s =>
    match step fuel env s c with
    | none => none
    | some (ptr, s1) =>
      match run fuel cs s1 with
      | none => none
      | some (ptrs, s2) => some (ptr :: ptrs, s2)

/-- The state of a process that has made no call yet. -/
def empty_registry (brk brk_max : Nat) : State :=
  { mem := fun _ => 0
    global_base := fun _ => NULL
    brk := brk
    brk_max := brk_max
    trace := [] }

/-- The byte ranges `[b, b + BLOCK_SIZE + size)` of the blocks of a list do not overlap. -/
def ranges_disjoint (m : Mem) (bs : List Nat) : Prop :=
  ∀ a ∈ bs, ∀ b ∈ bs, a ≠ b →
    a + BLOCK_SIZE + get_size m a ≤ b ∨ b + BLOCK_SIZE + get_size m b ≤ a

instance (m : Mem) (bs : List Nat) : Decidable (ranges_disjoint m bs) :=
  inferInstanceAs (Decidable (∀ a ∈ bs, ∀ b ∈ bs, a ≠ b →
    a + BLOCK_SIZE + get_size m a ≤ b ∨ b + BLOCK_SIZE + get_size m b ≤ a))

/-- Allocate 50 and 30 bytes, free the first and allocate 40 bytes, all on processor 0. -/
def reuse_calls : List (Env × Call) :=
  [(env_cpu0, Call.malloc 50), (env_cpu0, Call.malloc 30), (env_cpu0, Call.free 4120),
   (env_cpu0, Call.malloc 40)]

/-- The arena of `arena_50_30_80` in a process whose break cannot move. -/
def arena_no_room : State := { arena_50_30_80 with brk_max := 4328 }

/-- An arena of processor 0 with two adjacent blocks in use, of sizes 50 and 30. -/
def two_blocks : State :=
  { mem := mk_block (mk_block (fun _ => 0) 4096 50 4170 0) 4170 30 0 0
    global_base := fun i => if i = 0 then 4096 else 0
    brk := 4224
    brk_max := 1048576
    trace := [] }

/-- A process that has made no call yet and whose memory holds the byte 255 everywhere. -/
def dirty_registry : State :=
  { mem := fun _ => 255
    global_base := fun _ => NULL
    brk := 4096
    brk_max := 1048576
    trace := [] }

/-! ## States and predicates for the growth paths and the list -/

/-- The answer of a processor that cannot be resolved, with a refusing `mmap`. -/
def env_no_cpu : Env := { cpu := -1, mmap := MAP_FAILED }

/-- Processor 0 and an `mmap` that answers the address `1048576`. -/
def env_map : Env := { cpu := 0, mmap := 1048576 }

/-- A process as `dirty_registry` whose break cannot move. -/
def dirty_no_room : State := { dirty_registry with brk_max := 4096 }

/-- The last state of a sequence of calls, or the first state when a walk did not end. -/
def after_run (fuel : Nat) (calls : List (Env × Call)) (s : State) : State :=
  match run fuel calls s with
  | none => s
  | some (_, s1) => s1

/-- Allocate 50, 30 and 80 bytes and free all three, on processor 0. -/
def free_all_calls : List (Env × Call) :=
  [(env_cpu0, Call.malloc 50), (env_cpu0, Call.malloc 30), (env_cpu0, Call.malloc 80),
   (env_cpu0, Call.free 4120), (env_cpu0, Call.free 4194), (env_cpu0, Call.free 4248)]

/-- Allocate 50, 30 and 80 bytes and free the first, on processor 0. -/
def free_first_calls : List (Env × Call) :=
  [(env_cpu0, Call.malloc 50), (env_cpu0, Call.malloc 30), (env_cpu0, Call.malloc 80),
   (env_cpu0, Call.free 4120)]

/-- Conservation of reserved bytes by the split of one search, as the specification words
it: request and remainder, each with its header, add up to the source with its header, the
remainder is smaller than the source, and it lies inside the former payload of the source. -/
def split_conserves (fuel : Nat) (s : State) (n cpuNum : Nat) : Prop :=
  ∀ r last s', find_free_block_best_fit fuel s (s.global_base cpuNum) n cpuNum
      = some (r, last, s') →
    r ≠ NULL → n < get_size s.mem r →
      ((n : Int) + (BLOCK_SIZE : Int))
          + ((get_size s'.mem (get_next s'.mem r) : Int) + (BLOCK_SIZE : Int))
        = (get_size s.mem r : Int) + (BLOCK_SIZE : Int) ∧
      get_size s'.mem (get_next s'.mem r) < get_size s.mem r ∧
      r + BLOCK_SIZE ≤ get_next s'.mem r ∧
      get_next s'.mem r + BLOCK_SIZE + get_size s'.mem (get_next s'.mem r)
        ≤ r + BLOCK_SIZE + get_size s.mem r

/-- The locks held by the caller: the arena lock, if any, and whether `sbrk_lock` is held. -/
abbrev Held := Option Nat × Bool

/-- The effect of one event on the held locks; `none` when the event breaks the discipline:
an arena lock is taken only with no lock held, `sbrk_lock` only under an arena lock, and an
arena lock is released only after `sbrk_lock`. -/
def lock_step (held : Held) : Event → Option Held
  | Event.lock cpuNum => if held = (none, false) then some (some cpuNum, false) else none
  | Event.unlock cpuNum => if held = (some cpuNum, false) then some (none, false) else none
  | Event.lock_sbrk => if held.1 ≠ none ∧ held.2 = false then some (held.1, true) else none
  | Event.unlock_sbrk => if held.2 = true then some (held.1, false) else none
  | Event.sbrk _ => some held
  | Event.mmap _ => some held

/-- The held locks after a list of events. -/
def lock_run : Held → List Event → Option Held
  | held, [] => some held
  | held, e :: es =>
    match lock_step held e with
    | none => none
    | some held1 => lock_run held1 es

/-- Whether every `sbrk` call of a list of events is made while `sbrk_lock` is held. -/
def sbrk_under_lock : Bool → List Event → Bool
  | _, [] => true
  | _, Event.lock_sbrk :: es => sbrk_under_lock true es
  | _, Event.unlock_sbrk :: es => sbrk_under_lock false es
  | locked, Event.sbrk _ :: es => locked && sbrk_under_lock locked es
  | locked, _ :: es => sbrk_under_lock locked es
/-- Two threads in the small path of `get_space`, both past `block = sbrk(0)` before either
takes `sbrk_lock` for its `sbrk(size + BLOCK_SIZE)`: for each thread, the address kept in
`block` and the address answered to its growth request. -/
def cursor_race (s : State) (size1 size2 : Nat) : (Nat × Nat) × (Nat × Nat) :=
  let a0 := sbrk s 0
  let b0 := sbrk a0.2 0
  let a1 := sbrk (log b0.2 Event.lock_sbrk) (size1 + BLOCK_SIZE)
  let b1 := sbrk (log (log a1.2 Event.unlock_sbrk) Event.lock_sbrk) (size2 + BLOCK_SIZE)
  ((a0.1, a1.1), (b0.1, b1.1))

/-- The branch of `mymalloc` for an arena whose head was read as `NULL` (lines 136 to 144
and 162 to 166): lock, `get_space` without a tail, store of the head, unlock. The test of
the head (line 135) comes before the lock, so a thread can enter this branch with a state
in which the head is no longer `NULL`. -/
def first_allocation (env : Env) (s : State) (size : Nat) : Nat × State :=
  let cpuNum := env.cpu.toNat
  let r := get_space env (log s (Event.lock cpuNum)) NULL size
  if r.1 = NULL then (NULL, log r.2 (Event.unlock cpuNum))
  else (r.1 + BLOCK_SIZE, log (set_base r.2 cpuNum r.1) (Event.unlock cpuNum))

/-- The memory that the small path of `get_space` leaves when `sbrk` succeeds. -/
def small_mem (m : Mem) (block lastBlock size : Nat) : Mem :=
  let m1 := if lastBlock ≠ NULL then set_next m lastBlock block else m
  set_free (set_next (set_size m1 block size) block NULL) block 0

/-- The memory that the large path of `get_space` leaves when `mmap` succeeds. -/
def large_mem (m : Mem) (block lastBlock size : Nat) : Mem :=
  let m2 := set_size (set_next m block NULL) block (rounded_size size)
  let m3 :=
    if size < get_size m2 block then split m2 block size
    else set_next (set_size m2 block size) block NULL
  let m4 := if lastBlock ≠ NULL then set_next m3 lastBlock block else m3
  set_free m4 block 0
/-- The least multiple of 4096 that is at least `size + BLOCK_SIZE`, in the words of the
specification: `ceil((size + BLOCK_SIZE) / 4096)` pages. -/
def least_page_multiple (size : Nat) : Nat := 4096 * ((size + BLOCK_SIZE + 4095) / 4096)

/-- The large path as the specification words it, for one call of `get_space` whose `mmap`
succeeds: the size first assigned is the least page multiple; when it exceeds the request
the block keeps `size` bytes, is in use and is followed by a free block of
`rounded - BLOCK_SIZE - size` bytes; otherwise it keeps `size` bytes and ends the list. -/
def large_path_as_specified (env : Env) (s : State) (lastBlock size : Nat) : Prop :=
  rounded_size size = least_page_multiple size ∧
  (size < least_page_multiple size →
    get_size (get_space env s lastBlock size).2.mem env.mmap = size ∧
    get_free (get_space env s lastBlock size).2.mem env.mmap = 0 ∧
    get_free (get_space env s lastBlock size).2.mem
      (get_next (get_space env s lastBlock size).2.mem env.mmap) = 1 ∧
    get_size (get_space env s lastBlock size).2.mem
      (get_next (get_space env s lastBlock size).2.mem env.mmap)
        = least_page_multiple size - BLOCK_SIZE - size) ∧
  (¬ size < least_page_multiple size →
    get_size (get_space env s lastBlock size).2.mem env.mmap = size ∧
    get_next (get_space env s lastBlock size).2.mem env.mmap = NULL)

instance (env : Env) (s : State) (lastBlock size : Nat) :
    Decidable (large_path_as_specified env s lastBlock size) := by
  unfold large_path_as_specified
  infer_instance

/-- The headers of the blocks of a list lie apart from each other. -/
def headers_apart (bs : List Nat) : Prop :=
  ∀ a ∈ bs, ∀ b ∈ bs, a ≠ b → a + BLOCK_SIZE ≤ b ∨ b + BLOCK_SIZE ≤ a

instance (bs : List Nat) : Decidable (headers_apart bs) :=
  inferInstanceAs (Decidable (∀ a ∈ bs, ∀ b ∈ bs, a ≠ b →
    a + BLOCK_SIZE ≤ b ∨ b + BLOCK_SIZE ≤ a))

/-- No header of a block of the list overlaps the `len` bytes at `base`, and these bytes
lie below `2^64`. -/
def fresh_region (bs : List Nat) (base len : Nat) : Prop :=
  base + len < WORD ∧ ∀ c ∈ bs, c + BLOCK_SIZE ≤ base ∨ base + len ≤ c

instance (bs : List Nat) (base len : Nat) : Decidable (fresh_region bs base len) :=
  inferInstanceAs (Decidable (base + len < WORD ∧
    ∀ c ∈ bs, c + BLOCK_SIZE ≤ base ∨ base + len ≤ c))

/-- The blocks of a list do not overlap and end below `2^64`. -/
def well_formed (m : Mem) (bs : List Nat) : Prop :=
  ranges_disjoint m bs ∧ ∀ b ∈ bs, b + BLOCK_SIZE + get_size m b ≤ WORD

instance (m : Mem) (bs : List Nat) : Decidable (well_formed m bs) :=
  inferInstanceAs (Decidable (ranges_disjoint m bs ∧
    ∀ b ∈ bs, b + BLOCK_SIZE + get_size m b ≤ WORD))

/-- Every block of the list that fits a request of `size` bytes either has exactly that
size or leaves room for the header of a remainder. -/
def room_for_split (m : Mem) (bs : List Nat) (size : Nat) : Prop :=
  ∀ b ∈ bs, Fits m size b → get_size m b = size ∨ size + BLOCK_SIZE ≤ get_size m b

instance (m : Mem) (bs : List Nat) (size : Nat) : Decidable (room_for_split m bs size) :=
  inferInstanceAs (Decidable (∀ b ∈ bs, Fits m size b →
    get_size m b = size ∨ size + BLOCK_SIZE ≤ get_size m b))
/-- The block `b` is reached from `p` through `next`, after the blocks of `pre`. -/
def Path (m : Mem) : Nat → List Nat → Nat → Prop
  | p, [], b => p = b ∧ b ≠ NULL
  | p, c :: cs, b => p ≠ NULL ∧ p = c ∧ Path m (get_next m c) cs b

/-- The block `b` is linked in the list that starts at `head`. -/
def Linked (m : Mem) (head b : Nat) : Prop := ∃ pre, Path m head pre b

/-- The blocks of a list that come before the block `b`. -/
def blocks_before (bs : List Nat) (b : Nat) : List Nat :=
  bs.takeWhile (fun c => decide (c ≠ b))

/-- An arena of processor 0 with a block of 50 bytes in use and a free block of 30 bytes. -/
def arena_used_free : State :=
  { mem := mk_block (mk_block (fun _ => 0) 4096 50 4170 0) 4170 30 0 1
    global_base := fun i => if i = 0 then 4096 else 0
    brk := 4224
    brk_max := 1048576
    trace := [] }

/-! ## Reading and writing memory -/

theorem load_store_inside (m : Mem) (a k v : Nat) :
    ∀ (j i : Nat), i + j ≤ k → load (store m a k v) (a + i) j = v / 256 ^ i % 256 ^ j := by
  intro j
  induction j with
  | zero => intro i _; simp [load, Nat.mod_one]
  | succ j ih =>
    intro i h
    have h1 : load (store m a k v) (a + i + 1) j = v / 256 ^ (i + 1) % 256 ^ j := by
      have := ih (i + 1) (by omega)
      rwa [← Nat.add_assoc] at this
    have h2 : store m a k v (a + i) = v / 256 ^ i % 256 := by
      have hc : a ≤ a + i ∧ a + i < a + k := by omega
      simp [store, hc]
    rw [load, h1, h2, Nat.mod_mod, pow_succ 256 j, Nat.mul_comm (256 ^ j) 256, Nat.mod_mul,
      pow_succ, Nat.div_div_eq_div_mul]

theorem load_store_same (m : Mem) (a k v : Nat) :
    load (store m a k v) a k = v % 256 ^ k := by
  have := load_store_inside m a k v k 0 (by omega)
  simpa using this

theorem load_store_other (m : Mem) (a k v : Nat) :
    ∀ (j b : Nat), b + j ≤ a ∨ a + k ≤ b → load (store m a k v) b j = load m b j := by
  intro j
  induction j with
  | zero => intro b _; simp [load]
  | succ j ih =>
    intro b h
    have hc : ¬ (a ≤ b ∧ b < a + k) := by omega
    rw [load, load, ih (b + 1) (by omega)]
    simp [store, hc]

theorem load_lt (m : Mem) : ∀ (k a : Nat), load m a k < 256 ^ k := by
  intro k
  induction k with
  | zero => intro a; simp [load]
  | succ k ih =>
    intro a
    have h1 := ih (a + 1)
    have h2 : m a % 256 < 256 := Nat.mod_lt _ (by decide)
    rw [load, pow_succ]
    omega

theorem get_next_lt (m : Mem) (b : Nat) : get_next m b < WORD := by
  have := load_lt m 8 (b + 8)
  simpa [get_next, WORD] using this

theorem get_size_lt (m : Mem) (b : Nat) : get_size m b < WORD := by
  have := load_lt m 8 b
  simpa [get_size, WORD] using this

theorem to_size_t_lt (x : Int) : to_size_t x < WORD := by
  unfold to_size_t WORD
  omega

theorem split_fields (m : Mem) (b n : Nat) :
    get_size (split m b n) b = n % WORD ∧
    get_next (split m b n) b = (b + n + BLOCK_SIZE) % WORD ∧
    get_free (split m b n) b = get_free m b ∧
    get_size (split m b n) (b + n + BLOCK_SIZE) =
      to_size_t (to_int (sub64 (sub64 (get_size m b) BLOCK_SIZE) n)) ∧
    get_free (split m b n) (b + n + BLOCK_SIZE) = 1 ∧
    get_next (split m b n) (b + n + BLOCK_SIZE) = get_next m b := by
  have hs := to_size_t_lt (to_int (sub64 (sub64 (get_size m b) BLOCK_SIZE) n))
  have hn := get_next_lt m b
  simp only [split, get_size, get_next, get_free, set_size, set_next, set_free, BLOCK_SIZE, WORD] at *
  refine ⟨?_, ?_, ?_, ?_, ?_, ?_⟩
  · rw [load_store_same]; norm_num
  · rw [load_store_other _ _ _ _ _ _ (by omega), load_store_same]; norm_num
  · rw [load_store_other _ _ _ _ _ _ (by omega), load_store_other _ _ _ _ _ _ (by omega),
      load_store_other _ _ _ _ _ _ (by omega), load_store_other _ _ _ _ _ _ (by omega),
      load_store_other _ _ _ _ _ _ (by omega)]
  · rw [load_store_other _ _ _ _ _ _ (by omega), load_store_other _ _ _ _ _ _ (by omega),
      load_store_other _ _ _ _ _ _ (by omega), load_store_other _ _ _ _ _ _ (by omega),
      load_store_same]
    norm_num
    exact hs
  · rw [load_store_other _ _ _ _ _ _ (by omega), load_store_other _ _ _ _ _ _ (by omega),
      load_store_other _ _ _ _ _ _ (by omega), load_store_same]
    norm_num
  · rw [load_store_other _ _ _ _ _ _ (by omega), load_store_other _ _ _ _ _ _ (by omega),
      load_store_same, load_store_other _ _ _ _ _ _ (by omega),
      load_store_other _ _ _ _ _ _ (by omega)]
    norm_num
    exact hn

theorem split_frame (m : Mem) (b n x : Nat)
    (h : x < b ∨ (b + 16 ≤ x ∧ x < b + n + BLOCK_SIZE) ∨ b + n + BLOCK_SIZE + 20 ≤ x) :
    split m b n x = m x := by
  simp only [split, set_size, set_next, set_free, store, BLOCK_SIZE] at *
  have c1 : ¬ (b ≤ x ∧ x < b + 8) := by omega
  have c2 : ¬ (b + 8 ≤ x ∧ x < b + 8 + 8) := by omega
  have c3 : ¬ (b + n + 24 + 8 ≤ x ∧ x < b + n + 24 + 8 + 8) := by omega
  have c4 : ¬ (b + n + 24 + 16 ≤ x ∧ x < b + n + 24 + 16 + 4) := by omega
  have c5 : ¬ (b + n + 24 ≤ x ∧ x < b + n + 24 + 8) := by omega
  simp [c1, c2, c3, c4, c5]

theorem get_free_set_free (m : Mem) (b v : Nat) (hv : v < 4294967296) :
    get_free (set_free m b v) b = v := by
  simp only [get_free, set_free]
  rw [load_store_same]
  exact Nat.mod_eq_of_lt (by norm_num; exact hv)

theorem get_size_set_free (m : Mem) (b c v : Nat) (h : c + 8 ≤ b + 16 ∨ b + 20 ≤ c) :
    get_size (set_free m b v) c = get_size m c := by
  simp only [get_size, set_free]
  exact load_store_other _ _ _ _ _ _ (by omega)

theorem get_next_set_free (m : Mem) (b c v : Nat) (h : c + 16 ≤ b + 16 ∨ b + 20 ≤ c + 8) :
    get_next (set_free m b v) c = get_next m c := by
  simp only [get_next, set_free]
  exact load_store_other _ _ _ _ _ _ (by omega)

theorem get_free_set_free_other (m : Mem) (b c v : Nat) (h : c + 20 ≤ b + 16 ∨ b + 20 ≤ c + 16) :
    get_free (set_free m b v) c = get_free m c := by
  simp only [get_free, set_free]
  exact load_store_other _ _ _ _ _ _ (by omega)

/-! ## The list walk -/

theorem chain_ne_null (m : Mem) : ∀ (bs : List Nat) (p : Nat), Chain m p bs → ∀ b ∈ bs, b ≠ NULL := by
  intro bs
  induction bs with
  | nil => intro p _ b hb; simp at hb
  | cons a bs ih =>
    intro p h b hb
    obtain ⟨h1, h2, h3⟩ := h
    rcases List.mem_cons.mp hb with rfl | hb
    · rw [← h2]; exact h1
    · exact ih _ h3 b hb

theorem chain_unique (m : Mem) : ∀ (l1 l2 : List Nat) (p : Nat),
    Chain m p l1 → Chain m p l2 → l1 = l2 := by
  intro l1
  induction l1 with
  | nil =>
    intro l2 p h1 h2
    cases l2 with
    | nil => rfl
    | cons b l2 => exact absurd h1 h2.1
  | cons a l1 ih =>
    intro l2 p h1 h2
    cases l2 with
    | nil => exact absurd h2 h1.1
    | cons b l2 =>
      obtain ⟨_, ha, h1⟩ := h1
      obtain ⟨_, hb, h2⟩ := h2
      have hab : a = b := by rw [← ha, ← hb]
      subst hab
      rw [ih l2 _ h1 h2]

theorem chain_suffix (m : Mem) : ∀ (l1 l2 : List Nat) (b p : Nat),
    Chain m p (l1 ++ b :: l2) → Chain m b (b :: l2) := by
  intro l1
  induction l1 with
  | nil =>
    intro l2 b p h
    obtain ⟨h1, h2, h3⟩ := h
    exact ⟨h2 ▸ h1, rfl, h3⟩
  | cons a l1 ih =>
    intro l2 b p h
    exact ih l2 b _ h.2.2

theorem chain_nodup (m : Mem) : ∀ (bs : List Nat) (p : Nat), Chain m p bs → bs.Nodup := by
  intro bs
  induction bs with
  | nil => intro p _; exact List.nodup_nil
  | cons a bs ih =>
    intro p h
    refine List.nodup_cons.mpr ⟨?_, ih _ h.2.2⟩
    intro ha
    obtain ⟨l1, l2, hl⟩ := List.append_of_mem ha
    have h3 := h.2.2
    rw [hl] at h3
    have h4 := chain_suffix m l1 l2 a _ h3
    have h5 := chain_unique m _ _ _ h4.2.2 h3
    have := congrArg List.length h5
    simp at this
    omega

theorem find_loop_chain (m : Mem) (size : Nat) : ∀ (bs : List Nat) (fuel p t blk : Nat),
    Chain m p bs → bs.length ≤ fuel →
    find_loop m size fuel p t blk = some (scan m size bs t, last_visited bs blk) := by
  intro bs
  induction bs with
  | nil =>
    intro fuel p t blk h _
    have hp : p = NULL := h
    unfold find_loop
    simp [hp, scan, last_visited]
  | cons a bs ih =>
    intro fuel p t blk h hf
    obtain ⟨h1, h2, h3⟩ := h
    subst h2
    cases fuel with
    | zero => simp at hf
    | succ fuel =>
      unfold find_loop
      simp only [h1, if_false]
      rw [ih fuel _ _ _ h3 (by simpa using hf)]
      simp [scan, last_visited]

theorem scan_append (m : Mem) (size : Nat) : ∀ (l1 l2 : List Nat) (t : Nat),
    scan m size (l1 ++ l2) t = scan m size l2 (scan m size l1 t) := by
  intro l1
  induction l1 with
  | nil => intro l2 t; rfl
  | cons a l1 ih => intro l2 t; simp [scan, ih]

theorem pick_cases (m : Mem) (size b t : Nat) :
    (pick m size b t = t ∧ (Fits m size b → t ≠ NULL ∧ get_size m t ≤ get_size m b)) ∨
    (pick m size b t = b ∧ Fits m size b ∧ (t ≠ NULL → get_size m b < get_size m t)) := by
  unfold pick Fits
  by_cases h : get_free m b ≠ 0 ∧ size ≤ get_size m b
  · by_cases ht : t = NULL
    · right; simp [h, ht]
    · by_cases hlt : get_size m b < get_size m t
      · right; simp [h, ht, hlt]
      · left; simp [h, ht, hlt]; omega
  · left; simp [h]

theorem scan_spec (m : Mem) (size : Nat) : ∀ (bs : List Nat) (t : Nat),
    (∀ b ∈ bs, b ≠ NULL) → (t ≠ NULL → Fits m size t) →
    (scan m size bs t = t ∨
      (scan m size bs t ∈ bs ∧ (t ≠ NULL → get_size m (scan m size bs t) < get_size m t))) ∧
    (scan m size bs t ≠ NULL → Fits m size (scan m size bs t)) ∧
    (t ≠ NULL → scan m size bs t ≠ NULL ∧ get_size m (scan m size bs t) ≤ get_size m t) ∧
    (∀ c ∈ bs, Fits m size c →
      scan m size bs t ≠ NULL ∧ get_size m (scan m size bs t) ≤ get_size m c) := by
  intro bs
  induction bs with
  | nil =>
    intro t _ ht
    simp [scan]
    exact ht
  | cons a bs ih =>
    intro t hbs ht
    have ha : a ≠ NULL := hbs a (List.mem_cons_self _ _)
    have hbs2 : ∀ b ∈ bs, b ≠ NULL := fun b hb => hbs b (List.mem_cons_of_mem _ hb)
    simp only [scan]
    rcases pick_cases m size a t with ⟨hp, hq⟩ | ⟨hp, hfa, hq⟩
    · rw [hp]
      obtain ⟨i1, i2, i3, i4⟩ := ih t hbs2 ht
      refine ⟨?_, i2, i3, ?_⟩
      · rcases i1 with h | ⟨h, h2⟩
        · left; exact h
        · right; exact ⟨List.mem_cons_of_mem _ h, h2⟩
      · intro c hc hfc
        rcases List.mem_cons.mp hc with rfl | hc
        · obtain ⟨q1, q2⟩ := hq hfc
          obtain ⟨j1, j2⟩ := i3 q1
          exact ⟨j1, by omega⟩
        · exact i4 c hc hfc
    · rw [hp]
      obtain ⟨i1, i2, i3, i4⟩ := ih a hbs2 (fun _ => hfa)
      obtain ⟨j1, j2⟩ := i3 ha
      refine ⟨?_, i2, ?_, ?_⟩
      · right
        rcases i1 with h | ⟨h, h2⟩
        · rw [h]; exact ⟨List.mem_cons_self _ _, hq⟩
        · exact ⟨List.mem_cons_of_mem _ h, fun htn => by have := hq htn; omega⟩
      · intro htn; exact ⟨j1, by have := hq htn; omega⟩
      · intro c hc hfc
        rcases List.mem_cons.mp hc with rfl | hc
        · exact ⟨j1, j2⟩
        · exact i4 c hc hfc

theorem chain_congr (m m' : Mem) : ∀ (bs : List Nat) (p : Nat),
    (∀ c ∈ bs, get_next m' c = get_next m c) → Chain m p bs → Chain m' p bs := by
  intro bs
  induction bs with
  | nil => intro p _ h; exact h
  | cons a bs ih =>
    intro p hn h
    refine ⟨h.1, h.2.1, ?_⟩
    rw [hn a (List.mem_cons_self _ _)]
    exact ih _ (fun c hc => hn c (List.mem_cons_of_mem _ hc)) h.2.2

theorem scan_keep (m : Mem) (n : Nat) : ∀ (bs : List Nat) (t : Nat), t ≠ NULL →
    (∀ c ∈ bs, Fits m n c → get_size m t ≤ get_size m c) → scan m n bs t = t := by
  intro bs
  induction bs with
  | nil => intro t _ _; rfl
  | cons a bs ih =>
    intro t ht h
    have hp : pick m n a t = t := by
      rcases pick_cases m n a t with ⟨hp, _⟩ | ⟨_, hf, hq⟩
      · exact hp
      · have := h a (List.mem_cons_self _ _) hf
        have := hq ht
        omega
    simp only [scan, hp]
    exact ih t ht (fun c hc => h c (List.mem_cons_of_mem _ hc))

theorem scan_best (m : Mem) (n b : Nat) (pre post : List Nat)
    (hne : ∀ c ∈ pre, c ≠ NULL) (hb : b ≠ NULL) (hf : Fits m n b)
    (hpre : ∀ c ∈ pre, Fits m n c → get_size m b < get_size m c)
    (hpost : ∀ c ∈ post, Fits m n c → get_size m b ≤ get_size m c) :
    scan m n (pre ++ b :: post) NULL = b := by
  rw [scan_append]
  simp only [scan]
  obtain ⟨i1, i2, _, _⟩ := scan_spec m n pre NULL hne (fun h => absurd rfl h)
  have hp : pick m n b (scan m n pre NULL) = b := by
    rcases pick_cases m n b (scan m n pre NULL) with ⟨_, hq⟩ | ⟨hp, _⟩
    · exfalso
      obtain ⟨q1, q2⟩ := hq hf
      have hin : scan m n pre NULL ∈ pre := by
        rcases i1 with h | ⟨h, _⟩
        · exact absurd h q1
        · exact h
      have := hpre _ hin (i2 q1)
      omega
    · exact hp
  rw [hp]
  exact scan_keep m n post b hb hpost

/-! ## Best-fit search: C1, C2, C3 -/

theorem find_free_block_best_fit_chain (fuel : Nat) (s : State) (block n cpuNum : Nat)
    (bs : List Nat) (hchain : Chain s.mem (s.global_base cpuNum) bs) (hfuel : bs.length ≤ fuel) :
    find_free_block_best_fit fuel s block n cpuNum =
      some (scan s.mem n bs NULL, last_visited bs block, after_search s n bs) := by
  unfold find_free_block_best_fit after_search
  rw [find_loop_chain s.mem n bs fuel _ NULL block hchain hfuel]
  by_cases h1 : scan s.mem n bs NULL = NULL
  · simp [h1]
  · by_cases h2 : n < get_size s.mem (scan s.mem n bs NULL)
    · simp [h1, h2]
    · simp [h1, h2]

theorem log_mem (s : State) (e : Event) : (log s e).mem = s.mem := rfl

theorem log_global_base (s : State) (e : Event) : (log s e).global_base = s.global_base := rfl

theorem mymalloc_hit (fuel : Nat) (env : Env) (s : State) (n : Nat) (bs : List Nat)
    (hn : n ≠ 0) (hcpu : 0 ≤ env.cpu)
    (hchain : Chain s.mem (s.global_base env.cpu.toNat) bs) (hfuel : bs.length ≤ fuel)
    (hhit : scan s.mem n bs NULL ≠ NULL) :
    mymalloc fuel env s n =
      some (scan s.mem n bs NULL + BLOCK_SIZE,
        log { after_search (log s (Event.lock env.cpu.toNat)) n bs with
              mem := set_free (after_search (log s (Event.lock env.cpu.toNat)) n bs).mem
                (scan s.mem n bs NULL) 0 }
          (Event.unlock env.cpu.toNat)) := by
  have hb : s.global_base env.cpu.toNat ≠ NULL := by
    intro h0
    cases bs with
    | nil => exact hhit rfl
    | cons b bs => exact hchain.1 h0
  have hc : ¬ env.cpu < 0 := by omega
  unfold mymalloc
  simp only [hn, hc, hb, if_false, log_global_base]
  rw [find_free_block_best_fit_chain fuel (log s (Event.lock env.cpu.toNat)) _ n _ bs
    (by simpa [log_mem, log_global_base] using hchain) hfuel]
  simp only [log_mem]
  simp [hhit]

/-- C1: on an arena whose list is `bs`, with enough fuel for the walk, the search returns;
a reported block is a free block of the list of size at least `n`, and no free block of
the list of size at least `n` is smaller; it reports none exactly when no block of the list
is free with size at least `n`; and `mymalloc` on that arena hands out the reported block. -/
theorem find_free_block_best_fit_smallest (fuel : Nat) (s : State) (block n cpuNum : Nat)
    (bs : List Nat) (hchain : Chain s.mem (s.global_base cpuNum) bs) (hfuel : bs.length ≤ fuel) :
    ∃ r last s', find_free_block_best_fit fuel s block n cpuNum = some (r, last, s') ∧
      (r ≠ NULL → r ∈ bs ∧ get_free s.mem r ≠ 0 ∧ n ≤ get_size s.mem r ∧
        ∀ c ∈ bs, get_free s.mem c ≠ 0 → n ≤ get_size s.mem c →
          get_size s.mem r ≤ get_size s.mem c) ∧
      (r = NULL ↔ ∀ c ∈ bs, ¬ (get_free s.mem c ≠ 0 ∧ n ≤ get_size s.mem c)) ∧
      (∀ env : Env, n ≠ 0 → 0 ≤ env.cpu → env.cpu.toNat = cpuNum → r ≠ NULL →
        ∃ s'', mymalloc fuel env s n = some (r + BLOCK_SIZE, s'')) := by
  have hne := chain_ne_null s.mem bs _ hchain
  obtain ⟨i1, i2, _, i4⟩ := scan_spec s.mem n bs NULL hne (fun h => absurd rfl h)
  have hmem : scan s.mem n bs NULL ≠ NULL → scan s.mem n bs NULL ∈ bs := by
    intro h
    rcases i1 with h1 | ⟨h1, _⟩
    · exact absurd h1 h
    · exact h1
  refine ⟨_, _, _, find_free_block_best_fit_chain fuel s block n cpuNum bs hchain hfuel, ?_, ?_, ?_⟩
  · intro hr
    refine ⟨hmem hr, (i2 hr).1, (i2 hr).2, ?_⟩
    intro c hc hf hs
    exact (i4 c hc ⟨hf, hs⟩).2
  · constructor
    · intro hr c hc hf
      exact (i4 c hc hf).1 hr
    · intro hall
      by_contra hr
      exact hall _ (hmem hr) (i2 hr)
  · intro env hn hcpu hidx hr
    subst hidx
    exact ⟨_, mymalloc_hit fuel env s n bs hn hcpu hchain hfuel hr⟩

/-- On the arena with free blocks of 50, 30 and 80 bytes a request of 40 is served by the
block of 50 at 4096, and a request of 100 by none. -/
theorem find_free_block_best_fit_smallest_witness :
    ((find_free_block_best_fit 3 arena_50_30_80 0 40 0).map (fun r => r.1) = some 4096 ∧
      (find_free_block_best_fit 3 arena_50_30_80 0 100 0).map (fun r => r.1) = some NULL) ∧
    ∃ r last s', find_free_block_best_fit 3 arena_50_30_80 0 40 0 = some (r, last, s') ∧
      (r ≠ NULL → r ∈ [4096, 4170, 4224] ∧ get_free arena_50_30_80.mem r ≠ 0 ∧
        40 ≤ get_size arena_50_30_80.mem r ∧
        ∀ c ∈ [4096, 4170, 4224], get_free arena_50_30_80.mem c ≠ 0 →
          40 ≤ get_size arena_50_30_80.mem c →
          get_size arena_50_30_80.mem r ≤ get_size arena_50_30_80.mem c) ∧
      (r = NULL ↔ ∀ c ∈ [4096, 4170, 4224],
        ¬ (get_free arena_50_30_80.mem c ≠ 0 ∧ 40 ≤ get_size arena_50_30_80.mem c)) ∧
      (∀ env : Env, 40 ≠ 0 → 0 ≤ env.cpu → env.cpu.toNat = 0 → r ≠ NULL →
        ∃ s'', mymalloc 3 env arena_50_30_80 40 = some (r + BLOCK_SIZE, s'')) :=
  ⟨by decide, find_free_block_best_fit_smallest 3 arena_50_30_80 0 40 0 [4096, 4170, 4224]
    (by decide) (by decide)⟩

theorem remainder_size (old n : Nat) (h1 : n + BLOCK_SIZE ≤ old)
    (h2 : old < n + BLOCK_SIZE + 2147483648) (h3 : old < WORD) :
    to_size_t (to_int (sub64 (sub64 old BLOCK_SIZE) n)) = old - BLOCK_SIZE - n := by
  unfold to_size_t to_int sub64 BLOCK_SIZE WORD at *
  omega

/-- C4 fails on the code: from the empty registry with the break at 4096, allocating 50 and 30
bytes, freeing the first and allocating 40 bytes leaves the list `[4096, 4160, 4170]` of
processor 0, in which the header of the split remainder at 4160 overlaps the block at 4170
of the live 30-byte allocation and has rewritten its size field; a further request of 100
bytes returns 4184, whose 100 bytes cover the header and payload of that allocation. -/
theorem reuse_calls_overlap :
    (∃ s, run 3 reuse_calls (empty_registry 4096 1048576) = some ([4120, 4194, NULL, 4120], s) ∧
      Chain s.mem (s.global_base 0) [4096, 4160, 4170] ∧
      ¬ ranges_disjoint s.mem [4096, 4160, 4170] ∧
      4160 + BLOCK_SIZE > 4170 ∧
      get_size s.mem 4170 = 281474976710656) ∧
    (∃ s, run 3 (reuse_calls ++ [(env_cpu0, Call.malloc 100)]) (empty_registry 4096 1048576)
        = some ([4120, 4194, NULL, 4120, 4184], s) ∧
      4184 ≤ 4194 ∧ 4194 + 30 ≤ 4184 + 100) := by
  refine ⟨⟨_, rfl, by decide, by decide, by decide, by decide⟩, ⟨_, rfl, by decide, by decide⟩⟩

/-! ## The API: C5 to C10 -/

theorem after_search_trace (s : State) (n : Nat) (bs : List Nat) :
    (after_search s n bs).trace = s.trace ∧ (after_search s n bs).brk = s.brk ∧
    (after_search s n bs).global_base = s.global_base := by
  unfold after_search
  split <;> simp

theorem myfree_eq (env : Env) (s : State) (p : Nat) (hp : p ≠ NULL) (hcpu : 0 ≤ env.cpu) :
    myfree env s p =
      log { log s (Event.lock env.cpu.toNat) with
            mem := set_free s.mem (get_block_ptr p) 1 } (Event.unlock env.cpu.toNat) := by
  have hc : ¬ env.cpu < 0 := by omega
  simp [myfree, hp, hc, log]

/-- C5: let `b` be the block behind `p`, of size at least `n > 0`, and suppose that after
`myfree(p)` the list of the processor's arena is `pre ++ b :: post`, every fitting block
before `b` is strictly larger than `b` and every fitting block after `b` is at least as
large. Then `mymalloc(n)` on the same processor, with enough fuel, returns `p`, leaves `b`
not free, and adds only the lock and unlock of the arena to the trace: no `sbrk`, no `mmap`,
and the break stays where it was. -/
theorem free_then_reuse (fuel : Nat) (env : Env) (s : State) (p n : Nat) (pre post : List Nat)
    (hcpu : 0 ≤ env.cpu) (hp : BLOCK_SIZE ≤ p) (hn : 0 < n)
    (hS : n ≤ get_size s.mem (get_block_ptr p))
    (hchain : Chain (myfree env s p).mem ((myfree env s p).global_base env.cpu.toNat)
      (pre ++ get_block_ptr p :: post))
    (hfuel : (pre ++ get_block_ptr p :: post).length ≤ fuel)
    (hpre : ∀ c ∈ pre, Fits (myfree env s p).mem n c →
      get_size (myfree env s p).mem (get_block_ptr p) < get_size (myfree env s p).mem c)
    (hpost : ∀ c ∈ post, Fits (myfree env s p).mem n c →
      get_size (myfree env s p).mem (get_block_ptr p) ≤ get_size (myfree env s p).mem c) :
    ∃ s2, mymalloc fuel env (myfree env s p) n = some (p, s2) ∧
      get_free s2.mem (get_block_ptr p) = 0 ∧
      s2.trace = (myfree env s p).trace ++
        [Event.lock env.cpu.toNat, Event.unlock env.cpu.toNat] ∧
      s2.brk = s.brk := by
  have hp0 : p ≠ NULL := by unfold BLOCK_SIZE at hp; unfold NULL; omega
  have hmem : (myfree env s p).mem = set_free s.mem (get_block_ptr p) 1 := by
    rw [myfree_eq env s p hp0 hcpu]; rfl
  have hbrk : (myfree env s p).brk = s.brk := by
    rw [myfree_eq env s p hp0 hcpu]; rfl
  have hne := chain_ne_null _ _ _ hchain
  have hb : get_block_ptr p ≠ NULL := hne _ (by simp)
  have hfit : Fits (myfree env s p).mem n (get_block_ptr p) := by
    unfold Fits
    rw [hmem, get_free_set_free _ _ _ (by norm_num), get_size_set_free _ _ _ _ (by omega)]
    exact ⟨by decide, hS⟩
  have hscan := scan_best (myfree env s p).mem n (get_block_ptr p) pre post
    (fun c hc => hne c (by simp [hc])) hb hfit hpre hpost
  have hhit : scan (myfree env s p).mem n (pre ++ get_block_ptr p :: post) NULL ≠ NULL := by
    rw [hscan]; exact hb
  have hm := mymalloc_hit fuel env (myfree env s p) n _ (by omega) hcpu hchain hfuel hhit
  rw [hscan] at hm
  have hback : get_block_ptr p + BLOCK_SIZE = p := by
    unfold get_block_ptr; omega
  rw [hback] at hm
  obtain ⟨t1, t2, _⟩ := after_search_trace (log (myfree env s p) (Event.lock env.cpu.toNat)) n
    (pre ++ get_block_ptr p :: post)
  refine ⟨_, hm, ?_, ?_, ?_⟩
  · exact get_free_set_free _ _ _ (by norm_num)
  · change (after_search (log (myfree env s p) (Event.lock env.cpu.toNat)) n _).trace ++ [_] = _
    rw [t1]
    simp [log]
  · change (after_search (log (myfree env s p) (Event.lock env.cpu.toNat)) n _).brk = _
    rw [t2]
    exact hbrk

/-- With blocks of 50 and 30 bytes in use, freeing the second and asking for 25 bytes hands
the second out again. -/
theorem free_then_reuse_witness :
    ∃ s2, mymalloc 2 env_cpu0 (myfree env_cpu0 two_blocks 4194) 25 = some (4194, s2) ∧
      get_free s2.mem (get_block_ptr 4194) = 0 ∧
      s2.trace = (myfree env_cpu0 two_blocks 4194).trace ++
        [Event.lock env_cpu0.cpu.toNat, Event.unlock env_cpu0.cpu.toNat] ∧
      s2.brk = two_blocks.brk :=
  free_then_reuse 2 env_cpu0 two_blocks 4194 25 [4096] []
    (by decide) (by decide) (by decide) (by decide) (by decide) (by decide)
    (by decide) (by decide)

/-- C6: `mymalloc(0)` returns `NULL` and the state, trace included, is the one before the
call, whatever the processor and the environment answer. -/
theorem mymalloc_zero (fuel : Nat) (env : Env) (s : State) :
    mymalloc fuel env s 0 = some (NULL, s) := by
  simp [mymalloc]

theorem find_free_block_best_fit_miss (fuel : Nat) (s : State) (block n cpuNum r last : Nat)
    (s2 : State) (h : find_free_block_best_fit fuel s block n cpuNum = some (r, last, s2))
    (hr : r = NULL) : s2 = s := by
  unfold find_free_block_best_fit at h
  split at h
  · exact absurd h (by simp)
  · rename_i t blk _
    by_cases ht : t = NULL
    · simp [ht] at h
      exact h.2.2.symm
    · by_cases hlt : n < get_size s.mem t
      · simp [ht, hlt] at h
        exact absurd (h.1.trans hr) ht
      · simp [ht, hlt] at h
        exact absurd (h.1.trans hr) ht

theorem get_space_null (env : Env) (s : State) (last n : Nat)
    (hbrk : s.brk ≠ NULL) (hmap : env.mmap ≠ NULL) (h : (get_space env s last n).1 = NULL) :
    (get_space env s last n).2.mem = s.mem ∧
    (get_space env s last n).2.global_base = s.global_base := by
  unfold get_space at h ⊢
  by_cases hsz : n ≤ 4096
  · simp only [hsz, if_true] at h ⊢
    have h0 : (sbrk s 0).1 = s.brk := by simp [sbrk]
    split at h
    · split
      · simp [log, sbrk]; split <;> simp
      · rename_i h1 h2; exact absurd h1 h2
    · simp only [h0] at h
      exact absurd h hbrk
  · simp only [hsz, if_false] at h ⊢
    split at h
    · split
      · simp [log]
      · rename_i h1 h2; exact absurd h1 h2
    · exact absurd h hmap

/-- C7: when the break and the answer of `mmap` are not the null address, a call of
`mymalloc` that returns `NULL` leaves the whole memory, hence every field of every block,
and every entry of `global_base` as they were. -/
theorem mymalloc_failure_atomic (fuel : Nat) (env : Env) (s : State) (n : Nat) (s' : State)
    (hbrk : s.brk ≠ NULL) (hmap : env.mmap ≠ NULL)
    (h : mymalloc fuel env s n = some (NULL, s')) :
    s'.mem = s.mem ∧ s'.global_base = s.global_base := by
  unfold mymalloc at h
  by_cases hn : n = 0
  · simp [hn] at h; rw [← h]; exact ⟨rfl, rfl⟩
  · by_cases hc : env.cpu < 0
    · simp [hn, hc] at h; rw [← h]; exact ⟨rfl, rfl⟩
    · simp only [hn, hc, if_false] at h
      by_cases hb : s.global_base env.cpu.toNat = NULL
      · simp only [hb, if_true] at h
        split at h
        · rename_i hr
          have := get_space_null env (log s (Event.lock env.cpu.toNat)) NULL n hbrk hmap hr
          simp only [Option.some.injEq, Prod.mk.injEq, true_and] at h
          rw [← h]
          exact this
        · simp [BLOCK_SIZE, NULL] at h
      · simp only [hb, if_false] at h
        split at h
        · exact absurd h (by simp)
        · rename_i r last s2 hfind
          by_cases hr : r = NULL
          · have hs2 := find_free_block_best_fit_miss _ _ _ _ _ _ _ _ hfind hr
            subst hs2
            simp only [hr, if_true] at h
            split at h
            · rename_i hg
              have := get_space_null env (log s (Event.lock env.cpu.toNat)) last n hbrk hmap hg
              simp only [Option.some.injEq, Prod.mk.injEq, true_and] at h
              rw [← h]
              exact this
            · simp [BLOCK_SIZE, NULL] at h
          · simp only [hr, if_false] at h
            simp [BLOCK_SIZE, NULL] at h

/-- A request of 100 bytes that no free block fits, in a process whose break cannot move. -/
theorem mymalloc_failure_atomic_witness :
    ∃ s', mymalloc 3 env_cpu0 arena_no_room 100 = some (NULL, s') ∧
      s'.mem = arena_no_room.mem ∧ s'.global_base = arena_no_room.global_base :=
  ⟨_, rfl, mymalloc_failure_atomic 3 env_cpu0 arena_no_room 100 _ (by decide) (by decide) rfl⟩

/-- C9: `myfree(NULL)`, and `myfree(p)` for any `p` when `sched_getcpu` fails, return the
state they were given: no byte of memory, no entry of `global_base` and no event of the
trace, so no lock either, differs. -/
theorem myfree_null_or_unresolved (env : Env) (s : State) :
    myfree env s NULL = s ∧ ∀ p, env.cpu < 0 → myfree env s p = s := by
  constructor
  · simp [myfree]
  · intro p h
    simp [myfree, h]

/-- A null pointer on processor 0, and a block in use when `sched_getcpu` answers -1. -/
theorem myfree_null_or_unresolved_witness :
    myfree env_cpu0 two_blocks NULL = two_blocks ∧
    myfree { cpu := -1, mmap := MAP_FAILED } two_blocks 4120 = two_blocks :=
  have h := myfree_null_or_unresolved { cpu := -1, mmap := MAP_FAILED } two_blocks
  ⟨(myfree_null_or_unresolved env_cpu0 two_blocks).1, h.2 4120 (by decide)⟩

/-- C10: with `total = nmemb * size` modulo `2^64`, whenever `mymalloc(total)` returns a
pointer `p`, `mycalloc(nmemb, size)` returns the same `p`, each of the `total` bytes from `p`
on is zero in the state it leaves, and every other byte is as `mymalloc` left it. -/
theorem mycalloc_zero_filled (fuel : Nat) (env : Env) (s : State) (nmemb size p : Nat)
    (s1 : State) (h : mymalloc fuel env s ((nmemb * size) % WORD) = some (p, s1)) :
    ∃ s2, mycalloc fuel env s nmemb size = some (p, s2) ∧
      (∀ i, i < (nmemb * size) % WORD → s2.mem (p + i) = 0) ∧
      (∀ x, x < p ∨ p + (nmemb * size) % WORD ≤ x → s2.mem x = s1.mem x) ∧
      s2.global_base = s1.global_base := by
  refine ⟨{ s1 with mem := memset_zero s1.mem p ((nmemb * size) % WORD) }, ?_, ?_, ?_, rfl⟩
  · simp [mycalloc, h]
  · intro i hi
    have hc : p ≤ p + i ∧ p + i < p + (nmemb * size) % WORD := by omega
    simp [memset_zero, hc]
  · intro x hx
    have hc : ¬ (p ≤ x ∧ x < p + (nmemb * size) % WORD) := by omega
    simp [memset_zero, hc]

/-- The call `mycalloc(4, 8)` in a fresh process whose memory holds the byte 255 everywhere
returns 4120 and leaves 32 zero bytes there. -/
theorem mycalloc_zero_filled_witness :
    ∃ s2, mycalloc 0 env_cpu0 dirty_registry 4 8 = some (4120, s2) ∧
      (∀ i, i < (4 * 8) % WORD → s2.mem (4120 + i) = 0) ∧
      (∀ x, x < 4120 ∨ 4120 + (4 * 8) % WORD ≤ x →
        s2.mem x = ((mymalloc 0 env_cpu0 dirty_registry 32).getD (0, dirty_registry)).2.mem x) ∧
      s2.global_base = ((mymalloc 0 env_cpu0 dirty_registry 32).getD (0, dirty_registry)).2.global_base :=
  mycalloc_zero_filled 0 env_cpu0 dirty_registry 4 8 4120 _ rfl

/-! ## Failure of `mycalloc`: C11 -/

/-- C11 fails on the code: `mycalloc(4, 8)` returns `NULL` when `sched_getcpu` fails, and
when `sbrk` fails, but `memset` has then written 32 zero bytes at the addresses 0 to 31
of a memory that held 255 there; the byte at 32 is untouched. -/
theorem mycalloc_writes_through_null :
    ((mycalloc 0 env_no_cpu dirty_registry 4 8).map
        (fun r => (r.1, r.2.mem 0, r.2.mem 31, r.2.mem 32)) = some (NULL, 0, 0, 255) ∧
      (mymalloc 0 env_no_cpu dirty_registry 32).map (fun r => r.1) = some NULL) ∧
    ((mycalloc 0 env_cpu0 dirty_no_room 4 8).map
        (fun r => (r.1, r.2.mem 0, r.2.mem 31, r.2.mem 32)) = some (NULL, 0, 0, 255) ∧
      (mymalloc 0 env_cpu0 dirty_no_room 32).map (fun r => r.1) = some NULL) ∧
    dirty_registry.mem 0 = 255 ∧ dirty_registry.mem 31 = 255 := by
  decide

/-! ## Splits that leave no room for a header: C14 -/

/-- C14 fails on the code: in the state reached by allocating 50, 30 and 80 bytes and
freeing all three, a request of 40 splits the block of 50 at 4096 into a block of 40 and a
block at 4160 whose size field is `2^64 - 14`: the two do not add up to the source, the
remainder is not smaller than 50, and its header ends at 4184, past the end 4170 of the
source. -/
theorem short_split_breaks_conservation :
    ¬ split_conserves 3 (after_run 3 free_all_calls (empty_registry 4096 1048576)) 40 0 ∧
    (find_free_block_best_fit 3 (after_run 3 free_all_calls (empty_registry 4096 1048576))
        4096 40 0).map
      (fun r => (r.1, get_size r.2.2.mem r.1, get_next r.2.2.mem r.1,
        get_size r.2.2.mem (get_next r.2.2.mem r.1)))
      = some (4096, 40, 4160, 18446744073709551602) ∧
    get_size (after_run 3 free_all_calls (empty_registry 4096 1048576)).mem 4096 = 50 := by
  refine ⟨?_, by decide, by decide⟩
  intro h
  have h1 := (h _ _ _ rfl (by decide) (by decide)).2.1
  revert h1
  decide

/-! ## Blocks of the large path: C15 -/

/-- C15 fails on the code: `mymalloc(5000)` on an empty arena asks `mmap` for 5024 bytes,
a mapping of 8192 bytes at 1048576, and builds the block of 5000 bytes and a free block of
3168 bytes at 1053600; with their headers they take 8216 bytes and the second ends at
1056792, 24 bytes past the mapping. For 8168 bytes the header of the second block starts
at the end of the mapping. -/
theorem large_path_exceeds_mapping :
    ((mymalloc 0 env_map dirty_registry 5000).map
        (fun r => (r.1, r.2.trace, get_size r.2.mem 1048576, get_next r.2.mem 1048576,
          get_size r.2.mem 1053600, get_free r.2.mem 1053600))
      = some (1048600, [Event.lock 0, Event.mmap 5024, Event.unlock 0],
          5000, 1053600, 3168, 1) ∧
      rounded_size 5000 = 8192 ∧
      (5000 + BLOCK_SIZE) + (3168 + BLOCK_SIZE) > 8192 ∧
      1053600 + BLOCK_SIZE + 3168 > 1048576 + 8192) ∧
    ((mymalloc 0 env_map dirty_registry 8168).map
        (fun r => (r.1, get_size r.2.mem 1048576, get_next r.2.mem 1048576,
          get_size r.2.mem 1056768, get_free r.2.mem 1056768))
      = some (1048600, 8168, 1056768, 0, 1) ∧
      rounded_size 8168 = 8192 ∧
      1056768 = 1048576 + 8192) := by
  decide

/-! ## Blocks that leave the list: C16 -/

/-- C16 fails on the code: after allocating 50, 30 and 80 bytes and freeing the first, the
list of processor 0 is `[4096, 4170, 4224]`; `mymalloc(40)` then splits the block at 4096,
the header written at 4160 covers the low bytes of the `next` field of the block at 4170,
and the list becomes `[4096, 4160, 4170]`: the block at 4224 of the live 80-byte
allocation is no longer linked. -/
theorem short_split_unlinks_block :
    Chain (after_run 3 free_first_calls (empty_registry 4096 1048576)).mem
      ((after_run 3 free_first_calls (empty_registry 4096 1048576)).global_base 0)
      [4096, 4170, 4224] ∧
    (∃ s', mymalloc 3 env_cpu0 (after_run 3 free_first_calls (empty_registry 4096 1048576)) 40
        = some (4120, s') ∧
      Chain s'.mem (s'.global_base 0) [4096, 4160, 4170] ∧
      get_next s'.mem 4170 = NULL) ∧
    get_next (after_run 3 free_first_calls (empty_registry 4096 1048576)).mem 4170 = 4224 ∧
    ¬ List.Sublist [4096, 4170, 4224] [4096, 4160, 4170] := by
  refine ⟨by decide, ⟨_, rfl, by decide, by decide⟩, by decide, by decide⟩

/-! ## A search that finds nothing: C18 -/

theorem last_visited_eq_getLast : ∀ (bs : List Nat) (block : Nat) (hne : bs ≠ []),
    last_visited bs block = bs.getLast hne := by
  intro bs
  induction bs with
  | nil => intro _ hne; exact absurd rfl hne
  | cons a bs ih =>
    intro block hne
    cases bs with
    | nil => rfl
    | cons b bs =>
      have h1 : last_visited (a :: b :: bs) block = last_visited (b :: bs) a := rfl
      rw [h1, ih a (List.cons_ne_nil b bs)]
      exact (List.getLast_cons (List.cons_ne_nil b bs)).symm

theorem chain_last_next (m : Mem) : ∀ (bs : List Nat) (p : Nat) (hne : bs ≠ []),
    Chain m p bs → get_next m (bs.getLast hne) = NULL := by
  intro bs
  induction bs with
  | nil => intro _ hne; exact absurd rfl hne
  | cons a bs ih =>
    intro p hne h
    cases bs with
    | nil => exact h.2.2
    | cons b bs =>
      rw [List.getLast_cons (by simp)]
      exact ih _ (by simp) h.2.2

theorem scan_miss (m : Mem) (n : Nat) (bs : List Nat) (hne : ∀ b ∈ bs, b ≠ NULL)
    (hmiss : ∀ c ∈ bs, ¬ Fits m n c) : scan m n bs NULL = NULL := by
  obtain ⟨i1, i2, _, _⟩ := scan_spec m n bs NULL hne (fun h => absurd rfl h)
  by_contra h
  rcases i1 with h1 | ⟨h1, _⟩
  · exact h h1
  · exact hmiss _ h1 (i2 h)

theorem after_search_miss (s : State) (n : Nat) (bs : List Nat)
    (h : scan s.mem n bs NULL = NULL) : after_search s n bs = s := by
  simp [after_search, h]

/-- C18: on an arena whose list `bs` is not empty and holds no free block of size at least
`n`, the search, with enough fuel, returns `NULL`, leaves the last block of the list in
`*block`, and returns the state it was given, so no field of any block has changed; the
`next` of that last block is `NULL`. -/
theorem find_free_block_best_fit_miss_tail (fuel : Nat) (s : State) (block n cpuNum : Nat)
    (bs : List Nat) (hne : bs ≠ [])
    (hchain : Chain s.mem (s.global_base cpuNum) bs) (hfuel : bs.length ≤ fuel)
    (hmiss : ∀ c ∈ bs, ¬ (get_free s.mem c ≠ 0 ∧ n ≤ get_size s.mem c)) :
    find_free_block_best_fit fuel s block n cpuNum = some (NULL, bs.getLast hne, s) ∧
    get_next s.mem (bs.getLast hne) = NULL := by
  have hnn := chain_ne_null s.mem bs _ hchain
  have hscan := scan_miss s.mem n bs hnn hmiss
  refine ⟨?_, chain_last_next s.mem bs _ hne hchain⟩
  rw [find_free_block_best_fit_chain fuel s block n cpuNum bs hchain hfuel, hscan,
    after_search_miss s n bs hscan, last_visited_eq_getLast bs block hne]

/-- On the arena with two blocks in use the search for 10 bytes finds nothing and reports
the second block, at 4170. -/
theorem find_free_block_best_fit_miss_tail_witness :
    find_free_block_best_fit 2 two_blocks 4096 10 0 = some (NULL, 4170, two_blocks) ∧
    get_next two_blocks.mem 4170 = NULL :=
  find_free_block_best_fit_miss_tail 2 two_blocks 4096 10 0 [4096, 4170] (by decide)
    (by decide) (by decide) (by decide)
/-! ## Locks: C19 and C20 -/

theorem get_space_trace (env : Env) (s : State) (last n : Nat) :
    (get_space env s last n).2.trace = s.trace ++
      (if n ≤ 4096 then
        [Event.sbrk 0, Event.lock_sbrk, Event.sbrk ((n + BLOCK_SIZE) % WORD), Event.unlock_sbrk]
      else [Event.mmap ((n + BLOCK_SIZE) % WORD)]) := by
  unfold get_space
  by_cases hsz : n ≤ 4096
  · simp only [hsz, if_true]
    split
    · simp [log, sbrk]; split <;> simp
    · simp [log, sbrk]; split <;> simp
  · simp only [hsz, if_false]
    split <;> simp [log]

theorem find_free_block_best_fit_trace (fuel : Nat) (s : State) (block n cpuNum r last : Nat)
    (s2 : State) (h : find_free_block_best_fit fuel s block n cpuNum = some (r, last, s2)) :
    s2.trace = s.trace := by
  unfold find_free_block_best_fit at h
  split at h
  · exact absurd h (by simp)
  · rename_i t blk _
    by_cases ht : t = NULL
    · simp [ht] at h
      rw [← h.2.2]
    · by_cases hlt : n < get_size s.mem t
      · simp [ht, hlt] at h
        rw [← h.2.2]
      · simp [ht, hlt] at h
        rw [← h.2.2]

theorem log_trace (s : State) (e : Event) : (log s e).trace = s.trace ++ [e] := rfl

theorem set_base_trace (s : State) (c b : Nat) : (set_base s c b).trace = s.trace := rfl

theorem mymalloc_trace (fuel : Nat) (env : Env) (s : State) (n p : Nat) (s' : State)
    (h : mymalloc fuel env s n = some (p, s')) :
    s'.trace = s.trace ∨
    s'.trace = s.trace ++ [Event.lock env.cpu.toNat, Event.unlock env.cpu.toNat] ∨
    s'.trace = s.trace ++ (Event.lock env.cpu.toNat ::
      (if n ≤ 4096 then
        [Event.sbrk 0, Event.lock_sbrk, Event.sbrk ((n + BLOCK_SIZE) % WORD), Event.unlock_sbrk]
      else [Event.mmap ((n + BLOCK_SIZE) % WORD)]) ++ [Event.unlock env.cpu.toNat]) := by
  unfold mymalloc at h
  by_cases hn : n = 0
  · simp [hn] at h; left; rw [← h.2]
  · by_cases hc : env.cpu < 0
    · simp [hn, hc] at h; left; rw [← h.2]
    · simp only [hn, hc, if_false] at h
      by_cases hb : s.global_base env.cpu.toNat = NULL
      · simp only [hb, if_true] at h
        right; right
        have ht := get_space_trace env (log s (Event.lock env.cpu.toNat)) NULL n
        split at h
        · simp only [Option.some.injEq, Prod.mk.injEq] at h
          rw [← h.2, log_trace, ht, log_trace]
          simp
        · simp only [Option.some.injEq, Prod.mk.injEq] at h
          rw [← h.2, log_trace, set_base_trace, ht, log_trace]
          simp
      · simp only [hb, if_false] at h
        split at h
        · exact absurd h (by simp)
        · rename_i r last s2 hfind
          have hs2 := find_free_block_best_fit_trace _ _ _ _ _ _ _ _ hfind
          by_cases hr : r = NULL
          · simp only [hr, if_true] at h
            right; right
            have ht := get_space_trace env s2 last n
            split at h
            · simp only [Option.some.injEq, Prod.mk.injEq] at h
              rw [← h.2, log_trace, ht, hs2, log_trace]
              simp
            · simp only [Option.some.injEq, Prod.mk.injEq] at h
              rw [← h.2, log_trace, ht, hs2, log_trace]
              simp
          · simp only [hr, if_false] at h
            right; left
            simp only [Option.some.injEq, Prod.mk.injEq] at h
            rw [← h.2, log_trace]
            change s2.trace ++ _ = _
            rw [hs2, log_trace]
            simp

/-- C20 fails on the code: in the small path of `get_space` the call `sbrk(0)` that gives
the address of the new block is made before `sbrk_lock` is taken, so not every `sbrk` call
of the trace is under the lock; when two threads are both past that call before either
takes the lock, both keep the address 4096 for their block, although the growth request of
the second is answered 4136; and when two threads on processor 0 have both read the head of
the empty arena before either takes the arena lock, the second replaces the head 4096 of
the first by 4136, so the block of the first is no longer in the list. -/
theorem cursor_read_outside_sbrk_lock :
    (get_space env_cpu0 (empty_registry 4096 1048576) NULL 16).2.trace
      = [Event.sbrk 0, Event.lock_sbrk, Event.sbrk 40, Event.unlock_sbrk] ∧
    sbrk_under_lock false
      (get_space env_cpu0 (empty_registry 4096 1048576) NULL 16).2.trace = false ∧
    (get_space env_cpu0 (empty_registry 4096 1048576) NULL 16).1
      = (sbrk (empty_registry 4096 1048576) 0).1 ∧
    cursor_race (empty_registry 4096 1048576) 16 16 = ((4096, 4096), (4096, 4136)) ∧
    (first_allocation env_cpu0 (empty_registry 4096 1048576) 16).1 = 4120 ∧
    Chain (first_allocation env_cpu0 (empty_registry 4096 1048576) 16).2.mem
      ((first_allocation env_cpu0 (empty_registry 4096 1048576) 16).2.global_base 0) [4096] ∧
    (first_allocation env_cpu0
      (first_allocation env_cpu0 (empty_registry 4096 1048576) 16).2 16).1 = 4160 ∧
    Chain (first_allocation env_cpu0
        (first_allocation env_cpu0 (empty_registry 4096 1048576) 16).2 16).2.mem
      ((first_allocation env_cpu0
        (first_allocation env_cpu0 (empty_registry 4096 1048576) 16).2 16).2.global_base 0)
      [4136] := by
  decide

/-! ## More on reading and writing headers -/

theorem store_other (m : Mem) (a k v x : Nat) (h : x < a ∨ a + k ≤ x) :
    store m a k v x = m x := by
  have hc : ¬ (a ≤ x ∧ x < a + k) := by omega
  simp [store, hc]

theorem load_congr (m m' : Mem) : ∀ (k a : Nat),
    (∀ x, a ≤ x → x < a + k → m' x = m x) → load m' a k = load m a k := by
  intro k
  induction k with
  | zero => intro a _; rfl
  | succ k ih =>
    intro a h
    rw [load, load, h a (by omega) (by omega),
      ih (a + 1) (fun x h1 h2 => h x (by omega) (by omega))]

theorem get_size_set_size (m : Mem) (b v : Nat) (hv : v < WORD) :
    get_size (set_size m b v) b = v := by
  simp only [get_size, set_size]
  rw [load_store_same]
  exact Nat.mod_eq_of_lt (by unfold WORD at hv; norm_num; exact hv)

theorem get_next_set_next (m : Mem) (b v : Nat) (hv : v < WORD) :
    get_next (set_next m b v) b = v := by
  simp only [get_next, set_next]
  rw [load_store_same]
  exact Nat.mod_eq_of_lt (by unfold WORD at hv; norm_num; exact hv)

theorem get_size_set_size_other (m : Mem) (b c v : Nat) (h : c + 8 ≤ b ∨ b + 8 ≤ c) :
    get_size (set_size m b v) c = get_size m c := by
  simp only [get_size, set_size]
  exact load_store_other _ _ _ _ _ _ (by omega)

theorem get_size_set_next (m : Mem) (b c v : Nat) (h : c ≤ b ∨ b + 16 ≤ c) :
    get_size (set_next m b v) c = get_size m c := by
  simp only [get_size, set_next]
  exact load_store_other _ _ _ _ _ _ (by omega)

theorem get_next_set_size (m : Mem) (b c v : Nat) (h : c + 16 ≤ b ∨ b ≤ c) :
    get_next (set_size m b v) c = get_next m c := by
  simp only [get_next, set_size]
  exact load_store_other _ _ _ _ _ _ (by omega)

theorem get_next_set_next_other (m : Mem) (b c v : Nat) (h : c + 8 ≤ b ∨ b + 8 ≤ c) :
    get_next (set_next m b v) c = get_next m c := by
  simp only [get_next, set_next]
  exact load_store_other _ _ _ _ _ _ (by omega)

theorem get_free_set_size (m : Mem) (b c v : Nat) (h : c + 20 ≤ b ∨ b ≤ c + 8) :
    get_free (set_size m b v) c = get_free m c := by
  simp only [get_free, set_size]
  exact load_store_other _ _ _ _ _ _ (by omega)

theorem get_free_set_next (m : Mem) (b c v : Nat) (h : c + 12 ≤ b ∨ b ≤ c) :
    get_free (set_next m b v) c = get_free m c := by
  simp only [get_free, set_next]
  exact load_store_other _ _ _ _ _ _ (by omega)

theorem rounded_size_eq (n : Nat) (h : n + BLOCK_SIZE ≤ 2147479552) :
    rounded_size n = 4096 * ((n + BLOCK_SIZE + 4095) / 4096) := by
  unfold rounded_size to_size_t to_int WORD
  unfold BLOCK_SIZE at *
  simp only
  split <;> omega
/-! ## The large path of `get_space`: C13 -/

theorem get_space_large_eq (env : Env) (s : State) (last n : Nat) (hn : 4096 < n)
    (hmap : env.mmap ≠ MAP_FAILED) :
    get_space env s last n =
      (env.mmap, { log s (Event.mmap ((n + BLOCK_SIZE) % WORD)) with
                   mem := large_mem s.mem env.mmap last n }) := by
  have hsz : ¬ n ≤ 4096 := by omega
  unfold get_space large_mem
  simp only [hsz, hmap, if_false]
  rfl

theorem rounded_size_lt (n : Nat) : rounded_size n < WORD := by
  unfold rounded_size
  exact to_size_t_lt _

theorem large_mem_split (m : Mem) (b last n : Nat) (hlt : n < rounded_size n)
    (hnw : b + n + BLOCK_SIZE < WORD)
    (hlast : last = NULL ∨ last + BLOCK_SIZE ≤ b ∨ b + n + 2 * BLOCK_SIZE ≤ last) :
    get_size (large_mem m b last n) b = n ∧
    get_free (large_mem m b last n) b = 0 ∧
    get_next (large_mem m b last n) b = b + n + BLOCK_SIZE ∧
    get_size (large_mem m b last n) (b + n + BLOCK_SIZE) =
      to_size_t (to_int (sub64 (sub64 (rounded_size n) BLOCK_SIZE) n)) ∧
    get_free (large_mem m b last n) (b + n + BLOCK_SIZE) = 1 ∧
    get_next (large_mem m b last n) (b + n + BLOCK_SIZE) = NULL ∧
    (last ≠ NULL → get_next (large_mem m b last n) last = b) := by
  have hR := rounded_size_lt n
  have h2 : get_size (set_size (set_next m b NULL) b (rounded_size n)) b = rounded_size n :=
    get_size_set_size _ _ _ hR
  have h2n : get_next (set_size (set_next m b NULL) b (rounded_size n)) b = NULL := by
    rw [get_next_set_size _ _ _ _ (by omega)]
    exact get_next_set_next _ _ _ (by unfold NULL WORD; omega)
  obtain ⟨f1, f2, _, f4, f5, f6⟩ :=
    split_fields (set_size (set_next m b NULL) b (rounded_size n)) b n
  rw [h2] at f4
  rw [h2n] at f6
  have hn1 : n % WORD = n := Nat.mod_eq_of_lt (by omega)
  have hn2 : (b + n + BLOCK_SIZE) % WORD = b + n + BLOCK_SIZE := Nat.mod_eq_of_lt hnw
  rw [hn1] at f1
  rw [hn2] at f2
  have hbw : b < WORD := by omega
  unfold large_mem
  simp only [h2, hlt, if_true]
  unfold BLOCK_SIZE at *
  by_cases hl : last = NULL
  · simp only [hl, ne_eq, not_true_eq_false, if_false]
    refine ⟨?_, ?_, ?_, ?_, ?_, ?_, fun h => False.elim h⟩
    · rw [get_size_set_free _ _ _ _ (by omega)]; exact f1
    · exact get_free_set_free _ _ _ (by norm_num)
    · rw [get_next_set_free _ _ _ _ (by omega)]; exact f2
    · rw [get_size_set_free _ _ _ _ (by omega)]; exact f4
    · rw [get_free_set_free_other _ _ _ _ (by omega)]; exact f5
    · rw [get_next_set_free _ _ _ _ (by omega)]; exact f6
  · have hl2 : last + 24 ≤ b ∨ b + n + 2 * 24 ≤ last := by
      rcases hlast with h | h
      · exact absurd h hl
      · exact h
    simp only [hl, ne_eq, not_false_eq_true, if_true]
    refine ⟨?_, ?_, ?_, ?_, ?_, ?_, fun _ => ?_⟩
    · rw [get_size_set_free _ _ _ _ (by omega), get_size_set_next _ _ _ _ (by omega)]; exact f1
    · exact get_free_set_free _ _ _ (by norm_num)
    · rw [get_next_set_free _ _ _ _ (by omega), get_next_set_next_other _ _ _ _ (by omega)]
      exact f2
    · rw [get_size_set_free _ _ _ _ (by omega), get_size_set_next _ _ _ _ (by omega)]; exact f4
    · rw [get_free_set_free_other _ _ _ _ (by omega), get_free_set_next _ _ _ _ (by omega)]
      exact f5
    · rw [get_next_set_free _ _ _ _ (by omega), get_next_set_next_other _ _ _ _ (by omega)]
      exact f6
    · rw [get_next_set_free _ _ _ _ (by omega)]
      exact get_next_set_next _ _ _ hbw

theorem large_mem_fit (m : Mem) (b last n : Nat) (hge : ¬ n < rounded_size n)
    (hnw : b + n + BLOCK_SIZE < WORD)
    (hlast : last = NULL ∨ last + BLOCK_SIZE ≤ b ∨ b + n + 2 * BLOCK_SIZE ≤ last) :
    get_size (large_mem m b last n) b = n ∧
    get_free (large_mem m b last n) b = 0 ∧
    get_next (large_mem m b last n) b = NULL ∧
    (last ≠ NULL → get_next (large_mem m b last n) last = b) := by
  have hR := rounded_size_lt n
  have h2 : get_size (set_size (set_next m b NULL) b (rounded_size n)) b = rounded_size n :=
    get_size_set_size _ _ _ hR
  have hbw : b < WORD := by omega
  have hn1 : n < WORD := by omega
  have h0 : NULL < WORD := by unfold NULL WORD; omega
  unfold large_mem
  simp only [h2, hge, if_false]
  unfold BLOCK_SIZE at *
  by_cases hl : last = NULL
  · simp only [hl, ne_eq, not_true_eq_false, if_false]
    refine ⟨?_, ?_, ?_, fun h => False.elim h⟩
    · rw [get_size_set_free _ _ _ _ (by omega), get_size_set_next _ _ _ _ (by omega)]
      exact get_size_set_size _ _ _ hn1
    · exact get_free_set_free _ _ _ (by norm_num)
    · rw [get_next_set_free _ _ _ _ (by omega)]
      exact get_next_set_next _ _ _ h0
  · have hl2 : last + 24 ≤ b ∨ b + n + 2 * 24 ≤ last := by
      rcases hlast with h | h
      · exact absurd h hl
      · exact h
    simp only [hl, ne_eq, not_false_eq_true, if_true]
    refine ⟨?_, ?_, ?_, fun _ => ?_⟩
    · rw [get_size_set_free _ _ _ _ (by omega), get_size_set_next _ _ _ _ (by omega),
        get_size_set_next _ _ _ _ (by omega)]
      exact get_size_set_size _ _ _ hn1
    · exact get_free_set_free _ _ _ (by norm_num)
    · rw [get_next_set_free _ _ _ _ (by omega), get_next_set_next_other _ _ _ _ (by omega)]
      exact get_next_set_next _ _ _ h0
    · rw [get_next_set_free _ _ _ _ (by omega)]
      exact get_next_set_next _ _ _ hbw
theorem chain_replace_tail (m m' : Mem) : ∀ (pre : List Nat) (p : Nat) (l1 l2 : List Nat),
    Chain m p (pre ++ l1) → (∀ c ∈ pre, get_next m' c = get_next m c) →
    (∀ q, Chain m q l1 → Chain m' q l2) → Chain m' p (pre ++ l2) := by
  intro pre
  induction pre with
  | nil => intro p l1 l2 h _ hq; exact hq p h
  | cons a pre ih =>
    intro p l1 l2 h hn hq
    refine ⟨h.1, h.2.1, ?_⟩
    rw [hn a (List.mem_cons_self _ _)]
    exact ih _ l1 l2 h.2.2 (fun c hc => hn c (List.mem_cons_of_mem _ hc)) hq

theorem small_mem_frame (m : Mem) (b last n x : Nat)
    (hx : x < b ∨ b + 20 ≤ x) (hl : last = NULL ∨ x < last + 8 ∨ last + 16 ≤ x) :
    small_mem m b last n x = m x := by
  unfold small_mem set_free set_next set_size
  rw [store_other _ _ _ _ _ (by omega), store_other _ _ _ _ _ (by omega),
    store_other _ _ _ _ _ (by omega)]
  by_cases h0 : last = NULL
  · simp [h0]
  · have h1 : x < last + 8 ∨ last + 16 ≤ x := by
      rcases hl with h | h
      · exact absurd h h0
      · exact h
    simp only [h0, ne_eq, not_false_eq_true, if_true]
    exact store_other _ _ _ _ _ (by omega)

theorem small_mem_fields (m : Mem) (b last n : Nat) (hn : n < WORD) (hb : b < WORD)
    (hl : last = NULL ∨ last + BLOCK_SIZE ≤ b ∨ b + BLOCK_SIZE ≤ last) :
    get_size (small_mem m b last n) b = n ∧
    get_next (small_mem m b last n) b = NULL ∧
    get_free (small_mem m b last n) b = 0 ∧
    (last ≠ NULL → get_next (small_mem m b last n) last = b) := by
  unfold small_mem
  refine ⟨?_, ?_, ?_, ?_⟩
  · rw [get_size_set_free _ _ _ _ (by omega), get_size_set_next _ _ _ _ (by omega)]
    exact get_size_set_size _ _ _ hn
  · rw [get_next_set_free _ _ _ _ (by omega)]
    exact get_next_set_next _ _ _ (by unfold NULL WORD; omega)
  · exact get_free_set_free _ _ _ (by norm_num)
  · intro h0
    have h1 : last + BLOCK_SIZE ≤ b ∨ b + BLOCK_SIZE ≤ last := by
      rcases hl with h | h
      · exact absurd h h0
      · exact h
    unfold BLOCK_SIZE at h1
    simp only [h0, ne_eq, not_false_eq_true, if_true]
    rw [get_next_set_free _ _ _ _ (by omega), get_next_set_next_other _ _ _ _ (by omega),
      get_next_set_size _ _ _ _ (by omega)]
    exact get_next_set_next _ _ _ hb

theorem get_space_small_cases (env : Env) (s : State) (last n : Nat) (hn : n ≤ 4096) :
    ((get_space env s last n).1 = NULL ∧
      ¬ (s.brk + (n + BLOCK_SIZE) ≤ s.brk_max ∧ s.brk ≠ MAP_FAILED ∧ s.brk ≠ NULL)) ∨
    ((s.brk + (n + BLOCK_SIZE) ≤ s.brk_max ∧ s.brk ≠ MAP_FAILED ∧ s.brk ≠ NULL) ∧
      (get_space env s last n).1 = s.brk ∧
      (get_space env s last n).2.mem = small_mem s.mem s.brk last n ∧
      (get_space env s last n).2.global_base = s.global_base ∧
      (get_space env s last n).2.brk = s.brk + (n + BLOCK_SIZE)) := by
  have hmod : (n + BLOCK_SIZE) % WORD = n + BLOCK_SIZE :=
    Nat.mod_eq_of_lt (by unfold BLOCK_SIZE WORD; omega)
  have hpos : n + BLOCK_SIZE ≠ 0 := by unfold BLOCK_SIZE; omega
  have hor : (n + BLOCK_SIZE = 0 ∨ s.brk + (n + BLOCK_SIZE) ≤ s.brk_max) ↔
      s.brk + (n + BLOCK_SIZE) ≤ s.brk_max := by
    constructor
    · intro h
      rcases h with h | h
      · exact absurd h hpos
      · exact h
    · intro h; exact Or.inr h
  unfold get_space
  simp only [hn, if_true, hmod, sbrk, log, true_or, Nat.add_zero, hor]
  by_cases hok : s.brk + (n + BLOCK_SIZE) ≤ s.brk_max
  · rw [if_pos hok]
    by_cases hf : s.brk = MAP_FAILED
    · left
      rw [if_pos hf]
      exact ⟨rfl, fun h => h.2.1 hf⟩
    · by_cases h0 : s.brk = NULL
      · left
        rw [if_neg hf]
        exact ⟨h0, fun h => h.2.2 h0⟩
      · right
        rw [if_neg hf]
        exact ⟨⟨hok, hf, h0⟩, rfl, rfl, rfl, rfl⟩
  · left
    rw [if_neg hok, if_pos rfl]
    exact ⟨rfl, fun h => hok h.1⟩
theorem mymalloc_empty (fuel : Nat) (env : Env) (s : State) (n : Nat) (hn : n ≠ 0)
    (hcpu : 0 ≤ env.cpu) (hb : s.global_base env.cpu.toNat = NULL) :
    mymalloc fuel env s n =
      if (get_space env (log s (Event.lock env.cpu.toNat)) NULL n).1 = NULL then
        some (NULL, log (get_space env (log s (Event.lock env.cpu.toNat)) NULL n).2
          (Event.unlock env.cpu.toNat))
      else
        some ((get_space env (log s (Event.lock env.cpu.toNat)) NULL n).1 + BLOCK_SIZE,
          log (set_base (get_space env (log s (Event.lock env.cpu.toNat)) NULL n).2
            env.cpu.toNat (get_space env (log s (Event.lock env.cpu.toNat)) NULL n).1)
            (Event.unlock env.cpu.toNat)) := by
  have hc : ¬ env.cpu < 0 := by omega
  unfold mymalloc
  simp only [hn, hc, hb, if_false, if_true]

theorem mymalloc_first_allocation (fuel : Nat) (env : Env) (s : State) (n : Nat)
    (hn : n ≠ 0) (hcpu : 0 ≤ env.cpu) (hb : s.global_base env.cpu.toNat = NULL) :
    mymalloc fuel env s n = some (first_allocation env s n) := by
  rw [mymalloc_empty fuel env s n hn hcpu hb]
  unfold first_allocation
  by_cases hr : (get_space env (log s (Event.lock env.cpu.toNat)) NULL n).1 = NULL
  · simp only [hr, if_true]
  · simp only [hr, if_false]

theorem mymalloc_miss (fuel : Nat) (env : Env) (s : State) (n : Nat) (bs : List Nat)
    (hn : n ≠ 0) (hcpu : 0 ≤ env.cpu) (hne : bs ≠ [])
    (hchain : Chain s.mem (s.global_base env.cpu.toNat) bs) (hfuel : bs.length ≤ fuel)
    (hscan : scan s.mem n bs NULL = NULL) :
    mymalloc fuel env s n =
      if (get_space env (log s (Event.lock env.cpu.toNat))
          (last_visited bs (s.global_base env.cpu.toNat)) n).1 = NULL then
        some (NULL, log (get_space env (log s (Event.lock env.cpu.toNat))
          (last_visited bs (s.global_base env.cpu.toNat)) n).2 (Event.unlock env.cpu.toNat))
      else
        some ((get_space env (log s (Event.lock env.cpu.toNat))
            (last_visited bs (s.global_base env.cpu.toNat)) n).1 + BLOCK_SIZE,
          log (get_space env (log s (Event.lock env.cpu.toNat))
            (last_visited bs (s.global_base env.cpu.toNat)) n).2
            (Event.unlock env.cpu.toNat)) := by
  have hb : s.global_base env.cpu.toNat ≠ NULL := by
    cases bs with
    | nil => exact absurd rfl hne
    | cons b bs => exact hchain.1
  have hc : ¬ env.cpu < 0 := by omega
  unfold mymalloc
  simp only [hn, hc, hb, if_false, log_global_base]
  rw [find_free_block_best_fit_chain fuel (log s (Event.lock env.cpu.toNat)) _ n _ bs
    (by simpa [log_mem, log_global_base] using hchain) hfuel]
  simp only [log_mem, hscan, if_true]
  rw [after_search_miss _ n bs (by simpa [log_mem] using hscan)]

theorem small_mem_chain (m : Mem) (head b n : Nat) (bs : List Nat) (hne : bs ≠ [])
    (hchain : Chain m head bs) (hapart : headers_apart bs)
    (hfresh : ∀ c ∈ bs, c + BLOCK_SIZE ≤ b ∨ b + BLOCK_SIZE ≤ c)
    (hb0 : b ≠ NULL) (hbw : b < WORD) (hnw : n < WORD) :
    Chain (small_mem m b (last_visited bs head) n) head (bs ++ [b]) ∧
    ∀ c ∈ bs, get_size (small_mem m b (last_visited bs head) n) c = get_size m c ∧
      get_free (small_mem m b (last_visited bs head) n) c = get_free m c := by
  have hnn := chain_ne_null m bs _ hchain
  have hnd := chain_nodup m bs _ hchain
  rw [last_visited_eq_getLast bs head hne]
  have hlmem : bs.getLast hne ∈ bs := List.getLast_mem hne
  have hl0 : bs.getLast hne ≠ NULL := hnn _ hlmem
  have hlf := hfresh _ hlmem
  obtain ⟨_, f2, _, f4⟩ := small_mem_fields m b (bs.getLast hne) n hnw hbw (Or.inr hlf)
  have hsplit : bs = bs.dropLast ++ [bs.getLast hne] := (List.dropLast_append_getLast hne).symm
  have hinit : ∀ c ∈ bs.dropLast, c ∈ bs ∧ c ≠ bs.getLast hne := by
    intro c hc
    refine ⟨List.mem_of_mem_dropLast hc, ?_⟩
    intro heq
    rw [hsplit] at hnd
    have := (List.nodup_append.mp hnd).2.2
    exact List.disjoint_left.mp this hc (by rw [heq]; simp)
  unfold BLOCK_SIZE at *
  constructor
  · conv => rhs; rw [hsplit]
    rw [List.append_assoc]
    rw [hsplit] at hchain
    refine chain_replace_tail m _ bs.dropLast head [bs.getLast hne] _ hchain ?_ ?_
    · intro c hc
      obtain ⟨hcm, hcl⟩ := hinit c hc
      have h1 := hfresh c hcm
      have h2 : c + 24 ≤ bs.getLast hne ∨ bs.getLast hne + 24 ≤ c := hapart c hcm _ hlmem hcl
      unfold get_next
      refine load_congr _ _ 8 (c + 8) (fun x hx1 hx2 => ?_)
      exact small_mem_frame m b _ n x (by omega) (Or.inr (by omega))
    · intro q hq
      refine ⟨hq.1, hq.2.1, ?_⟩
      rw [f4 hl0]
      exact ⟨hb0, rfl, f2⟩
  · intro c hc
    have h1 := hfresh c hc
    have h2 : c = bs.getLast hne ∨ c + 24 ≤ bs.getLast hne ∨ bs.getLast hne + 24 ≤ c := by
      by_cases heq : c = bs.getLast hne
      · exact Or.inl heq
      · exact Or.inr (hapart c hc _ hlmem heq)
    constructor
    · unfold get_size
      refine load_congr _ _ 8 c (fun x hx1 hx2 => ?_)
      exact small_mem_frame m b _ n x (by omega) (Or.inr (by omega))
    · unfold get_free
      refine load_congr _ _ 4 (c + 16) (fun x hx1 hx2 => ?_)
      exact small_mem_frame m b _ n x (by omega) (Or.inr (by omega))
theorem well_formed_apart (m : Mem) (bs : List Nat) (h : ranges_disjoint m bs) :
    headers_apart bs := by
  intro a ha b hb hab
  have := h a ha b hb hab
  omega

theorem hit_chain_fit (m : Mem) (head b : Nat) (bs : List Nat) (hchain : Chain m head bs)
    (hb : b ∈ bs) (hdisj : ranges_disjoint m bs) : Chain (set_free m b 0) head bs := by
  refine chain_congr m _ bs head ?_ hchain
  intro c hc
  by_cases hcb : c = b
  · rw [hcb]; exact get_next_set_free _ _ _ _ (by omega)
  · have := hdisj c hc b hb hcb
    unfold BLOCK_SIZE at this
    exact get_next_set_free _ _ _ _ (by omega)

theorem hit_chain_split (m : Mem) (head b n : Nat) (bs : List Nat) (hchain : Chain m head bs)
    (hb : b ∈ bs) (hdisj : ranges_disjoint m bs) (hroom : n + BLOCK_SIZE ≤ get_size m b)
    (hspace : b + BLOCK_SIZE + get_size m b ≤ WORD) :
    ∃ bs', Chain (set_free (split m b n) b 0) head bs' ∧ b ∈ bs' := by
  obtain ⟨pre, post, hbs⟩ := List.append_of_mem hb
  have hnd := chain_nodup m bs _ hchain
  have hnn := chain_ne_null m bs _ hchain
  have hb0 : b ≠ NULL := hnn b hb
  obtain ⟨_, f2, _, _, _, f6⟩ := split_fields m b n
  have hmod : (b + n + BLOCK_SIZE) % WORD = b + n + BLOCK_SIZE :=
    Nat.mod_eq_of_lt (by unfold BLOCK_SIZE at *; omega)
  rw [hmod] at f2
  have hother : ∀ c ∈ bs, c ≠ b →
      get_next (set_free (split m b n) b 0) c = get_next m c := by
    intro c hc hcb
    have h1 := hdisj c hc b hb hcb
    unfold BLOCK_SIZE at h1 hroom
    unfold get_next
    refine load_congr _ _ 8 (c + 8) (fun x hx1 hx2 => ?_)
    unfold set_free
    rw [store_other _ _ _ _ _ (by omega)]
    exact split_frame m b n x (by unfold BLOCK_SIZE; omega)
  have hnb : get_next (set_free (split m b n) b 0) b = b + n + BLOCK_SIZE := by
    rw [get_next_set_free _ _ _ _ (by omega)]; exact f2
  have hnb2 : get_next (set_free (split m b n) b 0) (b + n + BLOCK_SIZE) = get_next m b := by
    rw [get_next_set_free _ _ _ _ (by unfold BLOCK_SIZE; omega)]; exact f6
  have hpre : ∀ c ∈ pre, c ∈ bs ∧ c ≠ b := by
    intro c hc
    refine ⟨by rw [hbs]; simp [hc], ?_⟩
    intro heq
    rw [hbs] at hnd
    have := (List.nodup_append.mp hnd).2.2
    exact List.disjoint_left.mp this hc (by rw [heq]; simp)
  have hpost : ∀ c ∈ post, c ∈ bs ∧ c ≠ b := by
    intro c hc
    refine ⟨by rw [hbs]; simp [hc], ?_⟩
    intro heq
    rw [hbs] at hnd
    have h1 := (List.nodup_append.mp hnd).2.1
    have h2 := (List.nodup_cons.mp h1).1
    exact h2 (by rw [← heq]; exact hc)
  refine ⟨pre ++ b :: (b + n + BLOCK_SIZE) :: post, ?_, by simp⟩
  rw [hbs] at hchain
  refine chain_replace_tail m _ pre head (b :: post) _ hchain ?_ ?_
  · intro c hc
    exact hother c (hpre c hc).1 (hpre c hc).2
  · intro q hq
    refine ⟨hq.1, hq.2.1, ?_⟩
    rw [hnb]
    refine ⟨by unfold NULL BLOCK_SIZE; omega, rfl, ?_⟩
    rw [hnb2]
    refine chain_congr m _ post _ ?_ hq.2.2
    intro c hc
    exact hother c (hpost c hc).1 (hpost c hc).2

theorem chain_path (m : Mem) : ∀ (pre : List Nat) (p b : Nat) (post : List Nat),
    Chain m p (pre ++ b :: post) → Path m p pre b := by
  intro pre
  induction pre with
  | nil =>
    intro p b post h
    exact ⟨h.2.1, h.2.1 ▸ h.1⟩
  | cons a pre ih =>
    intro p b post h
    exact ⟨h.1, h.2.1, ih _ b post h.2.2⟩

theorem path_congr (m m' : Mem) : ∀ (pre : List Nat) (p b : Nat),
    (∀ c ∈ pre, get_next m' c = get_next m c) → Path m p pre b → Path m' p pre b := by
  intro pre
  induction pre with
  | nil => intro p b _ h; exact h
  | cons a pre ih =>
    intro p b hn h
    refine ⟨h.1, h.2.1, ?_⟩
    rw [hn a (List.mem_cons_self _ _)]
    exact ih _ b (fun c hc => hn c (List.mem_cons_of_mem _ hc)) h.2.2

theorem chain_linked (m : Mem) (p b : Nat) (bs : List Nat) (h : Chain m p bs) (hb : b ∈ bs) :
    Linked m p b := by
  obtain ⟨pre, post, hbs⟩ := List.append_of_mem hb
  rw [hbs] at h
  exact ⟨pre, chain_path m pre p b post h⟩

theorem blocks_before_eq : ∀ (pre : List Nat) (b : Nat) (post : List Nat),
    b ∉ pre → blocks_before (pre ++ b :: post) b = pre := by
  intro pre
  induction pre with
  | nil => intro b post _; simp [blocks_before]
  | cons a pre ih =>
    intro b post h
    have hab : a ≠ b := fun e => h (by rw [e]; exact List.mem_cons_self _ _)
    have hb : b ∉ pre := fun e => h (List.mem_cons_of_mem _ e)
    have := ih b post hb
    unfold blocks_before at this ⊢
    simp [hab]
    simpa using this

theorem hit_linked (m : Mem) (head b n : Nat) (bs : List Nat) (hchain : Chain m head bs)
    (hb : b ∈ bs) (hbelow : ∀ c ∈ blocks_before bs b, c + BLOCK_SIZE ≤ b) :
    Linked (set_free (split m b n) b 0) head b ∧ Linked (set_free m b 0) head b := by
  obtain ⟨pre, post, hbs⟩ := List.append_of_mem hb
  have hnd := chain_nodup m bs _ hchain
  have hnot : b ∉ pre := by
    intro hin
    rw [hbs] at hnd
    have := (List.nodup_append.mp hnd).2.2
    exact List.disjoint_left.mp this hin (List.mem_cons_self _ _)
  rw [hbs, blocks_before_eq pre b post hnot] at hbelow
  rw [hbs] at hchain
  have hp := chain_path m pre head b post hchain
  unfold BLOCK_SIZE at hbelow
  constructor
  · refine ⟨pre, path_congr m _ pre head b ?_ hp⟩
    intro c hc
    have := hbelow c hc
    unfold get_next
    refine load_congr _ _ 8 (c + 8) (fun x hx1 hx2 => ?_)
    unfold set_free
    rw [store_other _ _ _ _ _ (by omega)]
    exact split_frame m b n x (by omega)
  · refine ⟨pre, path_congr m _ pre head b ?_ hp⟩
    intro c hc
    have := hbelow c hc
    exact get_next_set_free _ _ _ _ (by omega)
theorem large_mem_frame (m : Mem) (b last n x : Nat)
    (hx : x < b ∨ b + n + BLOCK_SIZE + 20 ≤ x)
    (hl : last = NULL ∨ x < last + 8 ∨ last + 16 ≤ x) :
    large_mem m b last n x = m x := by
  unfold BLOCK_SIZE at hx
  have h3 : (if n < get_size (set_size (set_next m b NULL) b (rounded_size n)) b then
        split (set_size (set_next m b NULL) b (rounded_size n)) b n
      else set_next (set_size (set_size (set_next m b NULL) b (rounded_size n)) b n) b NULL) x
      = m x := by
    split
    · rw [split_frame _ b n x (by unfold BLOCK_SIZE; omega)]
      unfold set_size set_next
      rw [store_other _ _ _ _ _ (by omega), store_other _ _ _ _ _ (by omega)]
    · unfold set_size set_next
      rw [store_other _ _ _ _ _ (by omega), store_other _ _ _ _ _ (by omega),
        store_other _ _ _ _ _ (by omega), store_other _ _ _ _ _ (by omega)]
  unfold large_mem
  unfold set_free
  rw [store_other _ _ _ _ _ (by omega)]
  by_cases h0 : last = NULL
  · simp only [h0, ne_eq, not_true_eq_false, if_false]
    exact h3
  · have h1 : x < last + 8 ∨ last + 16 ≤ x := by
      rcases hl with h | h
      · exact absurd h h0
      · exact h
    simp only [h0, ne_eq, not_false_eq_true, if_true]
    unfold set_next
    rw [store_other _ _ _ _ _ (by omega)]
    exact h3

theorem large_mem_tail (m : Mem) (b last n : Nat) (hb0 : b ≠ NULL)
    (hnw : b + n + BLOCK_SIZE < WORD)
    (hlast : last = NULL ∨ last + BLOCK_SIZE ≤ b ∨ b + n + 2 * BLOCK_SIZE ≤ last) :
    get_size (large_mem m b last n) b = n ∧
    get_free (large_mem m b last n) b = 0 ∧
    (last ≠ NULL → get_next (large_mem m b last n) last = b) ∧
    ∃ rest, Chain (large_mem m b last n) b (b :: rest) := by
  by_cases hlt : n < rounded_size n
  · obtain ⟨g1, g2, g3, _, _, g6, g7⟩ := large_mem_split m b last n hlt hnw hlast
    refine ⟨g1, g2, g7, [b + n + BLOCK_SIZE], hb0, rfl, ?_⟩
    rw [g3]
    exact ⟨by unfold NULL BLOCK_SIZE; omega, rfl, g6⟩
  · obtain ⟨g1, g2, g3, g7⟩ := large_mem_fit m b last n hlt hnw hlast
    exact ⟨g1, g2, g7, [], hb0, rfl, g3⟩

theorem large_mem_chain (m : Mem) (head b n : Nat) (bs : List Nat) (hne : bs ≠ [])
    (hchain : Chain m head bs) (hapart : headers_apart bs)
    (hfresh : ∀ c ∈ bs, c + BLOCK_SIZE ≤ b ∨ b + n + 2 * BLOCK_SIZE ≤ c)
    (hb0 : b ≠ NULL) (hnw : b + n + BLOCK_SIZE < WORD) :
    ∃ bs', Chain (large_mem m b (last_visited bs head) n) head bs' ∧ b ∈ bs' := by
  have hnn := chain_ne_null m bs _ hchain
  have hnd := chain_nodup m bs _ hchain
  rw [last_visited_eq_getLast bs head hne]
  have hlmem : bs.getLast hne ∈ bs := List.getLast_mem hne
  have hl0 : bs.getLast hne ≠ NULL := hnn _ hlmem
  obtain ⟨_, _, t3, rest, t4⟩ := large_mem_tail m b (bs.getLast hne) n hb0 hnw
    (Or.inr (hfresh _ hlmem))
  have hsplit : bs = bs.dropLast ++ [bs.getLast hne] := (List.dropLast_append_getLast hne).symm
  have hinit : ∀ c ∈ bs.dropLast, c ∈ bs ∧ c ≠ bs.getLast hne := by
    intro c hc
    refine ⟨List.mem_of_mem_dropLast hc, ?_⟩
    intro heq
    rw [hsplit] at hnd
    have := (List.nodup_append.mp hnd).2.2
    exact List.disjoint_left.mp this hc (by rw [heq]; simp)
  refine ⟨bs.dropLast ++ (bs.getLast hne :: b :: rest), ?_, by simp⟩
  rw [hsplit] at hchain
  refine chain_replace_tail m _ bs.dropLast head [bs.getLast hne] _ hchain ?_ ?_
  · intro c hc
    obtain ⟨hcm, hcl⟩ := hinit c hc
    have h1 := hfresh c hcm
    have h2 : c + 24 ≤ bs.getLast hne ∨ bs.getLast hne + 24 ≤ c := hapart c hcm _ hlmem hcl
    unfold BLOCK_SIZE at h1
    unfold get_next
    refine load_congr _ _ 8 (c + 8) (fun x hx1 hx2 => ?_)
    exact large_mem_frame m b _ n x (by unfold BLOCK_SIZE; omega) (Or.inr (by omega))
  · intro q hq
    refine ⟨hq.1, hq.2.1, ?_⟩
    rw [t3 hl0]
    exact t4

theorem get_space_large_cases (env : Env) (s : State) (last n : Nat) (hn : 4096 < n) :
    (get_space env s last n).1 = NULL ∨
    (env.mmap ≠ NULL ∧ (get_space env s last n).1 = env.mmap ∧
      (get_space env s last n).2.mem = large_mem s.mem env.mmap last n ∧
      (get_space env s last n).2.global_base = s.global_base) := by
  by_cases hmap : env.mmap = MAP_FAILED
  · left
    have hsz : ¬ n ≤ 4096 := by omega
    unfold get_space
    simp only [hsz, hmap, if_false, if_true]
  · rw [get_space_large_eq env s last n hn hmap]
    by_cases h0 : env.mmap = NULL
    · left; exact h0
    · right; exact ⟨h0, rfl, rfl, rfl⟩
theorem mymalloc_hit_summary (fuel : Nat) (env : Env) (s : State) (n : Nat) (bs : List Nat)
    (hn : n ≠ 0) (hcpu : 0 ≤ env.cpu)
    (hchain : Chain s.mem (s.global_base env.cpu.toNat) bs) (hfuel : bs.length ≤ fuel)
    (hhit : scan s.mem n bs NULL ≠ NULL) :
    ∃ s1, mymalloc fuel env s n = some (scan s.mem n bs NULL + BLOCK_SIZE, s1) ∧
      s1.mem = set_free
        (if n < get_size s.mem (scan s.mem n bs NULL) then
          split s.mem (scan s.mem n bs NULL) n else s.mem) (scan s.mem n bs NULL) 0 ∧
      s1.global_base = s.global_base := by
  refine ⟨_, mymalloc_hit fuel env s n bs hn hcpu hchain hfuel hhit, ?_, ?_⟩
  · change set_free (after_search (log s (Event.lock env.cpu.toNat)) n bs).mem _ 0 = _
    unfold after_search
    simp only [log_mem]
    by_cases hlt : n < get_size s.mem (scan s.mem n bs NULL)
    · simp only [hhit, hlt, ne_eq, not_false_eq_true, and_self, if_true]
    · simp only [hlt, and_false, if_false, log_mem]
  · change (after_search (log s (Event.lock env.cpu.toNat)) n bs).global_base = _
    rw [(after_search_trace _ n bs).2.2]
    rfl

theorem mymalloc_grow_summary (fuel : Nat) (env : Env) (s : State) (n : Nat) (bs : List Nat)
    (hn : n ≠ 0) (hcpu : 0 ≤ env.cpu)
    (hchain : Chain s.mem (s.global_base env.cpu.toNat) bs) (hfuel : bs.length ≤ fuel)
    (hscan : scan s.mem n bs NULL = NULL) :
    ∃ last, (bs = [] → last = NULL) ∧
      (∀ hne : bs ≠ [], last = bs.getLast hne) ∧
      (((get_space env (log s (Event.lock env.cpu.toNat)) last n).1 = NULL ∧
          ∃ s1, mymalloc fuel env s n = some (NULL, s1)) ∨
        ((get_space env (log s (Event.lock env.cpu.toNat)) last n).1 ≠ NULL ∧
          ∃ s1, mymalloc fuel env s n =
              some ((get_space env (log s (Event.lock env.cpu.toNat)) last n).1 + BLOCK_SIZE, s1) ∧
            s1.mem = (get_space env (log s (Event.lock env.cpu.toNat)) last n).2.mem ∧
            (bs = [] → s1.global_base env.cpu.toNat =
              (get_space env (log s (Event.lock env.cpu.toNat)) last n).1) ∧
            (bs ≠ [] → s1.global_base =
              (get_space env (log s (Event.lock env.cpu.toNat)) last n).2.global_base))) := by
  by_cases hne : bs = []
  · subst hne
    have hb : s.global_base env.cpu.toNat = NULL := hchain
    refine ⟨NULL, fun _ => rfl, fun h => absurd rfl h, ?_⟩
    rw [mymalloc_empty fuel env s n hn hcpu hb]
    by_cases hr : (get_space env (log s (Event.lock env.cpu.toNat)) NULL n).1 = NULL
    · left
      rw [if_pos hr]
      exact ⟨hr, _, rfl⟩
    · right
      rw [if_neg hr]
      refine ⟨hr, _, rfl, rfl, fun _ => ?_, fun h => absurd rfl h⟩
      change (if env.cpu.toNat = env.cpu.toNat then _ else _) = _
      rw [if_pos rfl]
  · refine ⟨last_visited bs (s.global_base env.cpu.toNat), fun h => absurd h hne,
      fun h => last_visited_eq_getLast bs _ h, ?_⟩
    rw [mymalloc_miss fuel env s n bs hn hcpu hne hchain hfuel hscan]
    by_cases hr : (get_space env (log s (Event.lock env.cpu.toNat))
        (last_visited bs (s.global_base env.cpu.toNat)) n).1 = NULL
    · left
      rw [if_pos hr]
      exact ⟨hr, _, rfl⟩
    · right
      rw [if_neg hr]
      exact ⟨hr, _, rfl, rfl, fun h => absurd h hne, fun _ => rfl⟩
theorem grow_block (env : Env) (s : State) (n head last : Nat) (bs : List Nat)
    (hnw : n < WORD) (hchain : Chain s.mem head bs)
    (hfresh : if n ≤ 4096 then fresh_region bs s.brk (n + BLOCK_SIZE)
      else fresh_region bs env.mmap (n + 2 * BLOCK_SIZE))
    (hl1 : bs = [] → last = NULL) (hl2 : ∀ hne : bs ≠ [], last = bs.getLast hne)
    (hr : (get_space env s last n).1 ≠ NULL) :
    get_free (get_space env s last n).2.mem (get_space env s last n).1 = 0 ∧
    get_size (get_space env s last n).2.mem (get_space env s last n).1 = n ∧
    (get_space env s last n).2.global_base = s.global_base ∧
    (headers_apart bs →
      ∃ bs', Chain (get_space env s last n).2.mem
          (if bs = [] then (get_space env s last n).1 else head) bs' ∧
        (get_space env s last n).1 ∈ bs') := by
  by_cases hsz : n ≤ 4096
  · rw [if_pos hsz] at hfresh
    obtain ⟨hw, hfr⟩ := hfresh
    have hfr2 : ∀ c ∈ bs, c + BLOCK_SIZE ≤ s.brk ∨ s.brk + BLOCK_SIZE ≤ c := by
      intro c hc
      have := hfr c hc
      omega
    have hbw : s.brk < WORD := by omega
    rcases get_space_small_cases env s last n hsz with hc | ⟨⟨_, _, hb0⟩, c1, c2, c3, _⟩
    · exact absurd hc.1 hr
    · have hlast : last = NULL ∨ last + BLOCK_SIZE ≤ s.brk ∨ s.brk + BLOCK_SIZE ≤ last := by
        by_cases hne : bs = []
        · exact Or.inl (hl1 hne)
        · right
          rw [hl2 hne]
          exact hfr2 _ (List.getLast_mem hne)
      obtain ⟨f1, f2, f3, _⟩ := small_mem_fields s.mem s.brk last n hnw hbw hlast
      rw [c1, c2]
      refine ⟨f3, f1, c3, fun hapart => ?_⟩
      by_cases hne : bs = []
      · rw [if_pos hne, hl1 hne]
        rw [hl1 hne] at f2
        exact ⟨[s.brk], ⟨hb0, rfl, f2⟩, by simp⟩
      · rw [if_neg hne, hl2 hne, ← last_visited_eq_getLast bs head hne]
        exact ⟨bs ++ [s.brk],
          (small_mem_chain s.mem head s.brk n bs hne hchain hapart hfr2 hb0 hbw hnw).1, by simp⟩
  · rw [if_neg hsz] at hfresh
    obtain ⟨hw, hfr⟩ := hfresh
    have hw2 : env.mmap + n + BLOCK_SIZE < WORD := by unfold BLOCK_SIZE at *; omega
    rcases get_space_large_cases env s last n (by omega) with hc | ⟨hb0, c1, c2, c3⟩
    · exact absurd hc hr
    · have hlast : last = NULL ∨ last + BLOCK_SIZE ≤ env.mmap ∨
          env.mmap + n + 2 * BLOCK_SIZE ≤ last := by
        by_cases hne : bs = []
        · exact Or.inl (hl1 hne)
        · right
          rw [hl2 hne]
          have := hfr _ (List.getLast_mem hne)
          omega
      obtain ⟨t1, t2, _, rest, t4⟩ := large_mem_tail s.mem env.mmap last n hb0 hw2 hlast
      rw [c1, c2]
      refine ⟨t2, t1, c3, fun hapart => ?_⟩
      by_cases hne : bs = []
      · rw [if_pos hne]
        exact ⟨env.mmap :: rest, t4, by simp⟩
      · rw [if_neg hne, hl2 hne, ← last_visited_eq_getLast bs head hne]
        exact large_mem_chain s.mem head env.mmap n bs hne hchain hapart
          (fun c hc => by have := hfr c hc; omega) hb0 hw2

end MyMalloc
